import Mathlib

/-!
Verification development for the smart-home backend (src/main.py).

The file contains three shallow embeddings of the core logic:

* Model A: the device-state synchronization engine — the in-memory interval
  ledger (`device_on_intervals`), the seen-device set (`seen_devices`), the
  persisted device store, and the metric counters/gauges touched by
  `update_binary_device_status`, `mark_device_read`, `update_device_metrics`
  and the HTTP / MQTT command handlers;
* Model B: the per-parameter metric projection (`flip_device_boolean_flag`
  and the air-conditioner arm of `device_metrics_action`);
* Model C: the analytics endpoint (`device_analytics`,
  `get_device_on_interval_at_time`).

Timestamps are integers (whole seconds); `datetime.now(UTC)` is modelled by a
per-state clock that advances by one between consecutive commands. Metric
label sets are modelled as total maps from the label tuple to an optional
value, `none` meaning the series was never written.
-/

namespace SmartHome

/-- Pointwise update of a total map, used for every labelled metric family and
for the persisted store. -/
def fset {α β : Type} [DecidableEq α] (f : α → β) (a : α) (b : β) : α → β :=
  fun x => if x = a then b else f x

theorem fset_self {α β : Type} [DecidableEq α] (f : α → β) (a : α) (b : β) :
    fset f a b a = b := by simp [fset]

theorem fset_other {α β : Type} [DecidableEq α] (f : α → β) (a : α) (b : β)
    (x : α) (h : x ≠ a) : fset f a b x = f x := by simp [fset, h]

/-- A JSON parameter value as it reaches `device_metrics_action`: the scalar
values of the parameter objects the API accepts. -/
inductive PValue where
  | bool (b : Bool)
  | num (n : Int)
  | str (s : String)
deriving DecidableEq, Repr

/-- Whether a value is a JSON string; Python slicing `value[1:]` succeeds
exactly on these among the modelled scalars. -/
def PValue.isStr : PValue → Bool
  | .str _ => true
  | _ => false

/-- A persisted device record. `validate_device_data` only checks that every
required key is present, which always holds for this structured record; the
`parameters` object is carried as an association list in insertion order. -/
structure Device where
  id : String
  type : String
  room : String
  name : String
  status : String
  parameters : List (String × PValue)
deriving DecidableEq, Repr

/-- Process-wide state of the engine: the system clock, the seen-device set
`seen_devices`, the interval ledger `device_on_intervals`, the persisted
collection, and the metric families used on the status path. -/
structure Sys where
  clock : Int
  seen : List String
  intervals : String → List (Int × Option Int)
  db : String → Option Device
  onEvents : String × String → Nat
  usage : String × String → Int
  statusG : String × String → Option Int
  metaG : String × String × String → Option Int

/-- Initial state of a fresh process: empty ledger, empty seen set, and an
empty store. -/
def init : Sys where
  clock := 0
  seen := []
  intervals := fun _ => []
  db := fun _ => none
  onEvents := fun _ => 0
  usage := fun _ => 0
  statusG := fun _ => none
  metaG := fun _ => none

/-- The binary-state pairing table of `update_binary_device_status`. -/
def knownStates : List (String × String) :=
  [("on", "off"), ("off", "on"), ("locked", "unlocked"), ("unlocked", "locked"),
   ("open", "closed"), ("closed", "open")]

/-- Writes the `device_status` gauge: 1 for the engaged values, else 0. -/
def setStatusGauge (s : Sys) (device : Device) (new_status : String) : Sys :=
  let v : Int := if new_status ∈ (["on", "locked", "closed"] : List String) then 1 else 0
  { s with statusG := fset s.statusG (device.id, device.type) (some v) }

/-- Embedding of `update_binary_device_status` (src/main.py:115-151). The
returned flag is `false` exactly when the Python code raises (indexing
`device_on_intervals[id][-1]` with no recorded interval); in that case the
state returned is the state at the raise point and the status gauge write is
not reached. The close branch calls `datetime.now(UTC)` twice in the source;
both calls are modelled by the single current clock value. -/
def update_binary_device_status (s : Sys) (device : Device) (new_status : String) :
    Sys × Bool :=
  match knownStates.lookup new_status with
  | none => (s, true)
  | some _ =>
    let s1 :=
      if new_status = "on" ∧ (device.id ∉ s.seen ∨ device.status = "off") then
        let ivs' := fset s.intervals device.id (s.intervals device.id ++ [(s.clock, none)])
        let ev' :=
          if device.id ∈ s.seen then
            fset s.onEvents (device.id, device.type) (s.onEvents (device.id, device.type) + 1)
          else s.onEvents
        { s with intervals := ivs', onEvents := ev' }
      else s
    if new_status = "off" ∧ device.status = "on" then
      match (s1.intervals device.id).getLast? with
      | none => (s1, false)
      | some (last_on_time, _) =>
        let closed := (s1.intervals device.id).dropLast ++ [(last_on_time, some s1.clock)]
        let u' := s1.usage (device.id, device.type) + (s1.clock - last_on_time)
        let s2 := { s1 with intervals := fset s1.intervals device.id closed,
                            usage := fset s1.usage (device.id, device.type) u' }
        (setStatusGauge s2 device new_status, true)
    else (setStatusGauge s1 device new_status, true)

/-- Embedding of `update_device_metrics` (src/main.py:608-627): iterates the
payload pairs in order; `name`/`room` flip the metadata gauge (old value to 0,
new value to 1), `status` goes through `update_binary_device_status`, every
other key silently falls through the match. A raise inside the status branch
aborts the remaining fields. -/
def update_device_metrics : Sys → Device → List (String × String) → Sys × Bool
  | s, _, [] => (s, true)
  | s, old_device, (key, value) :: rest =>
    if key = "name" ∨ key = "room" then
      let oldVal := if key = "name" then old_device.name else old_device.room
      let g0 := fset s.metaG (old_device.id, key, oldVal) (some 0)
      let s1 := { s with metaG := fset g0 (old_device.id, key, value) (some 1) }
      update_device_metrics s1 old_device rest
    else if key = "status" then
      match update_binary_device_status s old_device value with
      | (s1, true) => update_device_metrics s1 old_device rest
      | (s1, false) => (s1, false)
    else update_device_metrics s old_device rest

/-- ASCII whitespace accepted (and stripped) by Python `float(str)`. -/
def isPySpace (c : Char) : Bool :=
  c = ' ' || c = '\t' || c = '\n' || c = '\r' || c = Char.ofNat 11 || c = Char.ofNat 12

/-- Consumes the continuation of a digit group: further digits, with an
underscore permitted only between two digits (PEP 515). Returns the rest of
the input after the group. -/
def chompMore : List Char → List Char
  | '_' :: c :: rest => if c.isDigit then chompMore rest else '_' :: c :: rest
  | c :: rest => if c.isDigit then chompMore rest else c :: rest
  | [] => []

/-- Consumes one digit group (a leading digit, then `chompMore`); `none` when
the input does not start with a digit. -/
def chompDigits : List Char → Option (List Char)
  | c :: rest => if c.isDigit then some (chompMore rest) else none
  | [] => none

/-- Consumes the mantissa of a decimal float literal: either a digit group
with an optional point and optional fractional group, or a point followed by
a fractional group. -/
def chompMantissa (l : List Char) : Option (List Char) :=
  match chompDigits l with
  | some r1 =>
      match r1 with
      | '.' :: r2 =>
          match chompDigits r2 with
          | some r3 => some r3
          | none => some r2
      | _ => some r1
  | none =>
      match l with
      | '.' :: r2 => chompDigits r2
      | _ => none

/-- Drops one optional leading sign character. -/
def dropSign : List Char → List Char
  | c :: rest => if c = '+' || c = '-' then rest else c :: rest
  | [] => []

/-- Whether Python `float(s)` succeeds on a string: surrounding whitespace is
stripped, then an optional sign is followed by `inf`, `infinity` or `nan`
(case-insensitive) or by a decimal mantissa with an optional exponent. -/
def pyFloatParses (s : String) : Bool :=
  let l0 := ((s.data.dropWhile isPySpace).reverse.dropWhile isPySpace).reverse
  let l := dropSign l0
  let low := l.map Char.toLower
  if low = "inf".data || low = "infinity".data || low = "nan".data then true
  else
    match chompMantissa l with
    | none => false
    | some rest =>
        match rest with
        | [] => true
        | c :: r =>
            if c = 'e' || c = 'E' then
              match chompDigits (dropSign r) with
              | some [] => true
              | _ => false
            else false

/-- Whether Python `float(value)` succeeds on a JSON scalar: numbers and
booleans always convert, a string converts when it parses as a float
literal. Prometheus `Gauge.set` applies exactly this conversion to its
argument and propagates its exception on failure. -/
def pyFloatableVal : PValue → Bool
  | .bool _ => true
  | .num _ => true
  | .str s => pyFloatParses s

/-- Membership of a key in a parameters object. -/
def paramsHasKey (ps : List (String × PValue)) (k : String) : Bool :=
  ps.any (fun kv => kv.1 = k)

/-- Whether the call `device_metrics_action(device, key, value)`
(src/main.py:293-412) raises. The water-heater, air-conditioner temperature
and door-lock battery arms apply `Gauge.set` (a `float` conversion) to the
raw value; the schedule arms read the sibling schedule key from the
parameters object with a bare subscript (`KeyError` when absent); the light
brightness arm reads the `is_dimmable` sibling the same way before its
`set`; the light color arm slices `value[1:]` (`TypeError` on a non-string)
outside its `except (KeyError, ValueError)` clause, though the
`dynamic_color` sibling subscript is evaluated first, so a missing sibling
is a caught `KeyError` and no raise. `labels(...)` coerces every label value
with `str` and never raises, validation failures return normally, and the
read-only arms do nothing. -/
def device_metrics_action_raises (device : Device) (key : String) (value : PValue) :
    Bool :=
  if device.type = "water_heater" then
    if key = "temperature" || key = "target_temperature" then !pyFloatableVal value
    else if key = "scheduled_on" then !paramsHasKey device.parameters "scheduled_off"
    else if key = "scheduled_off" then !paramsHasKey device.parameters "scheduled_on"
    else false
  else if device.type = "light" then
    if key = "brightness" then
      !paramsHasKey device.parameters "is_dimmable" || !pyFloatableVal value
    else if key = "color" then
      paramsHasKey device.parameters "dynamic_color" && !value.isStr
    else false
  else if device.type = "air_conditioner" then
    if key = "temperature" then !pyFloatableVal value else false
  else if device.type = "door_lock" then
    if key = "battery_level" then !pyFloatableVal value else false
  else false

/-- Every parameter of the record passes its metric projection without
raising, so `mark_device_read` runs to completion on it. -/
def paramsClean (d : Device) : Bool :=
  !(d.parameters.any (fun kv => device_metrics_action_raises d kv.1 kv.2))

/-- Embedding of `mark_device_read` (src/main.py:102-113). An empty device id
is falsy in Python, so such a device is never bootstrapped. The two `inc(0)`
calls create the counter series at zero, which is an identity on our total
maps. The iteration over the full record dictionary reaches the `name`,
`room` and `status` arms of `update_device_metrics`; all other keys of the
record fall through. The per-parameter `device_metrics_action` loop runs
after it: its gauge writes touch only the type-specific families of Model B,
which this state does not carry, but a raise in it (the first parameter with
`device_metrics_action_raises`) aborts the function after the metric update
and before `seen_devices.add`; the flag is `false` at such a raise and the
state returned is the state at the raise point. -/
def mark_device_read (s : Sys) (device : Device) : Sys × Bool :=
  if device.id ≠ "" ∧ device.id ∉ s.seen then
    let fields := [("name", device.name), ("room", device.room), ("status", device.status)]
    match update_device_metrics s device fields with
    | (s1, true) =>
        if device.parameters.any (fun kv => device_metrics_action_raises device kv.1 kv.2) then
          (s1, false)
        else
          let seen' := if device.id ∈ s1.seen then s1.seen else device.id :: s1.seen
          ({ s1 with seen := seen' }, true)
    | (s1, false) => (s1, false)
  else (s, true)

/-- Fields accepted by the update endpoints (src/main.py:462 and 640). -/
def allowedFields : List String := ["room", "name", "status"]

/-- Metadata gauge state after the name/room seeding steps of
`update_device_metrics(device, device)`: each key is marked stale then set
valid at the current value. -/
def markMetaG (s : Sys) (d : Device) : String × String × String → Option Int :=
  fset (fset (fset (fset s.metaG (d.id, "name", d.name) (some 0))
    (d.id, "name", d.name) (some 1)) (d.id, "room", d.room) (some 0))
    (d.id, "room", d.room) (some 1)

/-- The store write committing a validated update: the record under the
target id replaced by the updated document. -/
def commitUpdate (s1 : Sys) (i : String) (d : Device) : Sys :=
  { s1 with db := fset s1.db i (some d) }

/-- Applies a `$set` update of room/name/status fields to a record. -/
def applyUpdate (d : Device) (payload : List (String × String)) : Device :=
  payload.foldl (fun d kv =>
    if kv.1 = "room" then { d with room := kv.2 }
    else if kv.1 = "name" then { d with name := kv.2 }
    else if kv.1 = "status" then { d with status := kv.2 }
    else d) d

/-- Embedding of the HTTP POST handler `add_device` (src/main.py:572-589):
duplicate ids are rejected, otherwise the record is inserted and then
`mark_device_read` runs. A raise inside the mark escapes the handler as a
500 with the insert already committed and the module-level state as of the
raise point, which the first projection keeps. The outgoing MQTT publish is
a self-message that `on_message` ignores, so it has no further effect on
this state. -/
def add_device (s : Sys) (new_device : Device) : Sys :=
  if (s.db new_device.id).isSome then s
  else
    let s1 := { s with db := fset s.db new_device.id (some new_device) }
    (mark_device_read s1 new_device).1

/-- Embedding of the HTTP PUT handler `update_device` (src/main.py:631-660).
The payload `id` field is popped first; Python truthiness means an empty id
value skips the mismatch check. Field validation precedes every mutation. A
raise inside `update_device_metrics` yields a 500 and the store write is not
reached. -/
def update_device (s : Sys) (device_id : String) (updated : List (String × String)) :
    Sys :=
  let id_to_update := updated.lookup "id"
  let updated' := updated.filter (fun kv => kv.1 ≠ "id")
  if (id_to_update.getD "") ≠ "" ∧ id_to_update ≠ some device_id then s
  else if updated'.any (fun kv => decide (kv.1 ∉ allowedFields)) then s
  else match s.db device_id with
    | some device =>
        match update_device_metrics s device updated' with
        | (s1, true) =>
            { s1 with db := fset s1.db device_id (some (applyUpdate device updated')) }
        | (s1, false) => s1
    | none => s

/-- Embedding of the HTTP DELETE handler `delete_device` (src/main.py:593-605):
the seen-set removal precedes the store delete, and `set.remove` raises
`KeyError` when the id is not in the set, in which case nothing is mutated.
No off transition is synthesized on this path. -/
def delete_device (s : Sys) (device_id : String) : Sys :=
  if (s.db device_id).isSome then
    if device_id ∈ s.seen then
      { s with seen := s.seen.erase device_id, db := fset s.db device_id none }
    else s
  else s

/-- Outcome of a synchronous handler, distinguishing an uncaught Python
exception from a handled client error. -/
inductive HttpOutcome where
  | ok (code : Nat)
  | clientError (code : Nat) (reason : String)
  | pythonError (msg : String)
deriving DecidableEq, Repr

/-- Embedding of the HTTP GET handler `get_device` (src/main.py:559-568). The
membership test `"id" in device` runs before the `None` check, so a missing
id raises `TypeError`; the 400 not-found branch of the source is unreachable
for a missing record. For a stored unseen record `mark_device_read` runs,
and a raise inside its parameter loop escapes the handler as a 500 with the
module-level state mutated up to the raise point. -/
def get_device (s : Sys) (device_id : String) : Sys × HttpOutcome :=
  match s.db device_id with
  | none => (s, .pythonError "TypeError: argument of type NoneType is not iterable")
  | some d =>
      if d.id ∈ s.seen then (s, .ok 200)
      else
        match mark_device_read s d with
        | (s1, true) => (s1, .ok 200)
        | (s1, false) => (s1, .pythonError "metrics parameter projection raised")

/-- Embedding of the `update` arm of `on_message` (src/main.py:456-473). The
device lookup preceding the method dispatch (src/main.py:435-438) drops the
command when the id is unknown. An `id` field in the payload is rejected on
mismatch, and a matching one is still caught by the allowed-field filter. -/
def on_message_update (s : Sys) (device_id : String) (payload : List (String × String)) :
    Sys :=
  match s.db device_id with
  | none => s
  | some device =>
      if (payload.lookup "id").isSome ∧ payload.lookup "id" ≠ some device_id then s
      else if payload.any (fun kv => decide (kv.1 ∉ allowedFields)) then s
      else match update_device_metrics s device payload with
        | (s1, true) =>
            { s1 with db := fset s1.db device_id (some (applyUpdate device payload)) }
        | (s1, false) => s1

/-- Embedding of the `post` arm of `on_message` (src/main.py:474-489). The
device lookup preceding the dispatch requires the topic id to already exist,
while the duplicate check inside the arm requires it not to — so the insert
is dead code and the command never mutates the state. -/
def on_message_post (s : Sys) (device_id : String) (payload : Device) : Sys :=
  match s.db device_id with
  | none => s
  | some _ =>
      if payload.id ≠ device_id then s
      else if (s.db payload.id).isSome then s
      else
        match mark_device_read s payload with
        | (s1, true) => { s1 with db := fset s1.db payload.id (some payload) }
        | (s1, false) => s1

/-- Embedding of the `delete` arm of `on_message` (src/main.py:490-500): when
the record status is `on` an off transition is synthesized before the store
delete; a raise inside it skips the delete. The seen-device set is not
touched on this path. -/
def on_message_delete (s : Sys) (device_id : String) : Sys :=
  match s.db device_id with
  | none => s
  | some device =>
      if (s.db device_id).isSome then
        let r := if device.status = "on" then update_binary_device_status s device "off"
                 else (s, true)
        match r with
        | (s1, true) => { s1 with db := fset s1.db device_id none }
        | (s1, false) => s1
      else s

/-- One ingress command. `tick` lets the clock advance without any command,
covering arbitrary real-time gaps between operations. -/
inductive Cmd where
  | tick
  | httpPost (d : Device)
  | httpPut (id : String) (payload : List (String × String))
  | httpDelete (id : String)
  | httpGet (id : String)
  | mqttPost (topicId : String) (d : Device)
  | mqttUpdate (topicId : String) (payload : List (String × String))
  | mqttDelete (topicId : String)
deriving DecidableEq, Repr

/-- Dispatch of one command to its handler. -/
def applyCmd (s : Sys) : Cmd → Sys
  | .tick => s
  | .httpPost d => add_device s d
  | .httpPut i p => update_device s i p
  | .httpDelete i => delete_device s i
  | .httpGet i => (get_device s i).1
  | .mqttPost i d => on_message_post s i d
  | .mqttUpdate i p => on_message_update s i p
  | .mqttDelete i => on_message_delete s i

/-- One step: run the handler at the current clock, then let time advance. -/
def step (s : Sys) (c : Cmd) : Sys :=
  let s' := applyCmd s c
  { s' with clock := s'.clock + 1 }

/-- Runs a command trace from a state. -/
def run (s : Sys) (cs : List Cmd) : Sys := cs.foldl step s

/-- Number of open (end-less) intervals in one ledger entry. -/
def openCount (l : List (Int × Option Int)) : Nat :=
  (l.filter (fun p => p.2.isNone)).length

/-! ## Model B: per-parameter metric projection -/

/-- Python `str` of a boolean, used as the metric state label. -/
def pyStr (b : Bool) : String := if b then "True" else "False"

/-- Label string Python passes to `labels(...)` for a raw value. -/
def pyLabel : PValue → String
  | .bool b => pyStr b
  | .num n => toString n
  | .str s => s

/-- Python equality between a string literal and a JSON value. -/
def strEq (m : String) (v : PValue) : Bool := v == PValue.str m

/-- A gauge family with labels (device_id, state/mode). -/
def GaugeMap : Type := String × String → Option Int

/-- Embedding of `flip_device_boolean_flag` (src/main.py:165-178): for a
boolean value the `str(new_value)` label is set to 1 and the `str(not
new_value)` label to 0; any non-boolean value is rejected (`False` returned,
which the caller turns into an invalid-value error) with no gauge write. -/
def flip_device_boolean_flag (metric : GaugeMap) (device_id : String)
    (new_value : PValue) : GaugeMap × Bool :=
  match new_value with
  | .bool b =>
      let m1 := fset metric (device_id, pyStr b) (some 1)
      (fset m1 (device_id, pyStr (!b)) (some 0), true)
  | _ => (metric, false)

/-- Gauges written by the air-conditioner arm of `device_metrics_action`.
The temperature gauge stores `float(value)`; the model keeps the raw scalar
whose conversion succeeded. -/
structure ACState where
  ac_temperature : String → Option PValue
  ac_mode_status : GaugeMap
  ac_fan_status : GaugeMap
  ac_swing_status : GaugeMap

/-- An air-conditioner metric state with no series written yet. -/
def acInit : ACState where
  ac_temperature := fun _ => none
  ac_mode_status := fun _ => none
  ac_fan_status := fun _ => none
  ac_swing_status := fun _ => none

/-- Embedding of the `air_conditioner` arm of `device_metrics_action`
(src/main.py:358-387). The `mode` loop labels each write with the loop
variable `mode`; the `fan_speed` and `swing` loops label every write with the
incoming `value` instead (`mode=value` in the source), so only the single
series labelled with the selected value is ever touched. The first component
is the gauge state, the second the returned pair (success flag and error
reason) — `none` when the call raises instead of returning, which the
temperature arm does on a value `float` rejects (`Gauge.set`), leaving the
gauges untouched. -/
def device_metrics_action_ac (st : ACState) (device_id : String) (key : String)
    (value : PValue) : ACState × Option (Bool × Option String) :=
  if key = "temperature" then
    if pyFloatableVal value then
      ({ st with ac_temperature := fset st.ac_temperature device_id (some value) },
       some (true, none))
    else (st, none)
  else if key = "mode" then
    let modes := ["cool", "heat", "fan"]
    let g := modes.foldl
      (fun g mode => fset g (device_id, mode) (some (if strEq mode value then 1 else 0)))
      st.ac_mode_status
    ({ st with ac_mode_status := g }, some (true, none))
  else if key = "fan_speed" then
    let modes := ["off", "low", "medium", "high"]
    let g := modes.foldl
      (fun g mode => fset g (device_id, pyLabel value) (some (if strEq mode value then 1 else 0)))
      st.ac_fan_status
    ({ st with ac_fan_status := g }, some (true, none))
  else if key = "swing" then
    let modes := ["off", "on", "auto"]
    let g := modes.foldl
      (fun g mode => fset g (device_id, pyLabel value) (some (if strEq mode value then 1 else 0)))
      st.ac_swing_status
    ({ st with ac_swing_status := g }, some (true, none))
  else (st, some (false, some ("Unknown parameter " ++ key)))

/-- The one-of-N postcondition the projection is specified to establish: the
selected category reads 1 and every other category of the closed enum reads
0. -/
def exactlyOneCategory (g : GaugeMap) (device_id : String) (cats : List String)
    (v : String) : Prop :=
  g (device_id, v) = some 1 ∧ ∀ c ∈ cats, c ≠ v → g (device_id, c) = some 0

instance (g : GaugeMap) (i : String) (cats : List String) (v : String) :
    Decidable (exactlyOneCategory g i cats v) := by
  unfold exactlyOneCategory; infer_instance

/-! ## Model C: the analytics aggregator -/

/-- Embedding of `get_device_on_interval_at_time` (src/main.py:154-162) on one
ledger entry: the first open interval is returned unconditionally; a closed
interval is returned only when it covers the probe time. -/
def get_device_on_interval_at_time : List (Int × Option Int) → Int →
    Option (Int × Option Int)
  | [], _ => none
  | (on_time, off_time) :: rest, check_time =>
    match off_time with
    | none => some (on_time, none)
    | some off =>
        if on_time ≤ check_time ∧ check_time ≤ off then some (on_time, some off)
        else get_device_on_interval_at_time rest check_time

/-- Result of one Prometheus query: either a list of samples or the
`{"error": ...}` dictionary produced by `query_prometheus_point_increase`. -/
inductive QueryRes where
  | ok (items : List (Option String × Option Rat))
  | err (detail : String)
deriving DecidableEq

/-- One per-device entry of the analytics JSON; either field may be absent. -/
structure DevEntry where
  usageMin : Option Rat
  onEv : Option Int
deriving DecidableEq, Repr

/-- The analytics response body. -/
structure Report where
  windowFrom : Int
  windowTo : Int
  totalDevices : Nat
  totalOnEvents : Int
  totalUsageMinutes : Rat
  onDevices : List (String × DevEntry)
deriving DecidableEq

/-- Outcome of the analytics endpoint. -/
inductive AnalyticsOutcome where
  | invalidWindow
  | upstream (detail : String)
  | ok (r : Report)
deriving DecidableEq

/-- Python `dict.setdefault(id, {})` followed by a mutation of the entry. -/
def setDefaultUpd : List (String × DevEntry) → String → (DevEntry → DevEntry) →
    List (String × DevEntry)
  | [], id, f => [(id, f { usageMin := none, onEv := none })]
  | (k, e) :: rest, id, f =>
      if k = id then (k, f e) :: rest else (k, e) :: setDefaultUpd rest id f

/-- Presence test for `device_id in device_analytics_json`. -/
def hasKey (l : List (String × DevEntry)) (id : String) : Bool :=
  l.any (fun kv => kv.1 == id)

/-- The usage loop of `device_analytics` (src/main.py:796-814): each sample
sets the counter-derived usage, then an interval returned by
`get_device_on_interval_at_time` at `to_ts` adds the clamped overlap, where
the effective end of a still-open interval is `to_ts` (the expression
`off_time or to_ts`). Samples without a value are skipped; a missing
`device_id` label falls back to "unknown". -/
def analyticsUsageLoop (ledger : String → List (Int × Option Int))
    (from_ts to_ts : Int) :
    List (Option String × Option Rat) → List (String × DevEntry) →
    List (String × DevEntry)
  | [], j => j
  | (did?, val?) :: rest, j =>
    match val? with
    | none => analyticsUsageLoop ledger from_ts to_ts rest j
    | some usage_seconds =>
      let device_id := did?.getD "unknown"
      let j1 := setDefaultUpd j device_id
        (fun e => { e with usageMin := some (usage_seconds / 60) })
      let j2 :=
        match get_device_on_interval_at_time (ledger device_id) to_ts with
        | none => j1
        | some (on_time, off_time) =>
          let effective_start := max on_time from_ts
          let effective_end := min (off_time.getD to_ts) to_ts
          let extra_seconds : Rat := ((effective_end - effective_start : Int) : Rat)
          if hasKey j1 device_id then
            setDefaultUpd j1 device_id
              (fun e => { e with usageMin := some (e.usageMin.getD 0 + extra_seconds / 60) })
          else j1 ++ [(device_id, { usageMin := some (extra_seconds / 60), onEv := none })]
      analyticsUsageLoop ledger from_ts to_ts rest j2

/-- The event loop of `device_analytics` (src/main.py:815-822). -/
def analyticsEventLoop :
    List (Option String × Option Rat) → List (String × DevEntry) →
    List (String × DevEntry)
  | [], j => j
  | (did?, val?) :: rest, j =>
    match val? with
    | none => analyticsEventLoop rest j
    | some v =>
      let device_id := did?.getD "unknown"
      analyticsEventLoop rest
        (setDefaultUpd j device_id (fun e => { e with onEv := some v.floor }))

/-- Embedding of `device_analytics` (src/main.py:770-847). `now` is the
current time; absent `from`/`to` fields default to a seven-day window ending
now. The window guard precedes both queries. The first error guard checks
`usage_results`; the second guard tests `isinstance(event_results, dict)` but
then looks for the error key in `usage_results` again, so an event-query
failure paired with a successful usage query slips through, after which the
event loop iterates the keys of the error dictionary and skips every one of
them — producing a report without on-event data. -/
def device_analytics (now : Int) (bodyFrom bodyTo : Option Int)
    (usageQ eventQ : QueryRes) (ledger : String → List (Int × Option Int))
    (seenCount : Nat) : AnalyticsOutcome :=
  let to_ts := bodyTo.getD now
  let from_ts := bodyFrom.getD (to_ts - 7 * 24 * 3600)
  if from_ts ≥ to_ts then .invalidWindow
  else
    match usageQ with
    | .err e => .upstream e
    | .ok usageItems =>
      let eventItems :=
        match eventQ with
        | .err _ => []
        | .ok items => items
      let j := analyticsEventLoop eventItems
        (analyticsUsageLoop ledger from_ts to_ts usageItems [])
      let totalUsage := j.foldl (fun a kv => a + (kv.2.usageMin.getD 0)) 0
      let totalOn := j.foldl (fun a kv => a + (kv.2.onEv.getD 0)) 0
      .ok { windowFrom := from_ts, windowTo := to_ts, totalDevices := seenCount,
            totalOnEvents := totalOn, totalUsageMinutes := totalUsage, onDevices := j }

/-- The open-interval clamp exactly as the specification words it: effective
end is the interval end clamped to the window for a closed interval, and the
current time clamped to the window for a still-open one. -/
def specClampedExtra (now from_ts to_ts on_time : Int) (off_time : Option Int) : Int :=
  let effective_start := max on_time from_ts
  let effective_end := match off_time with
    | some e => min e to_ts
    | none => min now to_ts
  effective_end - effective_start

/-! ## Trace conditions and the ledger invariant -/

/-- Well-formedness of a command: JSON object keys are unique, so the payload
association lists carried by update commands have pairwise distinct keys. -/
def wfCmd : Cmd → Prop
  | .httpPut _ p => (p.map Prod.fst).Nodup
  | .mqttUpdate _ p => (p.map Prod.fst).Nodup
  | _ => True

instance (c : Cmd) : Decidable (wfCmd c) := by
  cases c <;> simp only [wfCmd] <;> infer_instance

/-- Every status value a command submits for the given device id lies in the
on/off domain. -/
def statusOkFor (id : String) : Cmd → Prop
  | .httpPost d => d.id = id → d.status = "on" ∨ d.status = "off"
  | .httpPut i p => i = id → ∀ kv ∈ p, kv.1 = "status" → kv.2 = "on" ∨ kv.2 = "off"
  | .mqttUpdate i p => i = id → ∀ kv ∈ p, kv.1 = "status" → kv.2 = "on" ∨ kv.2 = "off"
  | _ => True

instance (id : String) (c : Cmd) : Decidable (statusOkFor id c) := by
  cases c <;> simp only [statusOkFor] <;> infer_instance

/-- Every record a command posts under the given device id has parameters
whose metric projections run without raising, so its first-seen bootstrap
completes and the id reaches the seen-device set. -/
def paramsOkFor (id : String) : Cmd → Prop
  | .httpPost d => d.id = id → paramsClean d = true
  | _ => True

instance (id : String) (c : Cmd) : Decidable (paramsOkFor id c) := by
  cases c <;> simp only [paramsOkFor] <;> infer_instance

/-- Along the trace, every synchronous delete of the given id happens while
the ledger entry of that id holds no open interval. -/
def noOpenAtDeletes (id : String) : Sys → List Cmd → Prop
  | _, [] => True
  | s, c :: cs =>
      (c = Cmd.httpDelete id → openCount (s.intervals id) = 0) ∧
      noOpenAtDeletes id (step s c) cs

instance noOpenAtDeletesDec (id : String) (s : Sys) (cs : List Cmd) :
    Decidable (noOpenAtDeletes id s cs) :=
  match cs with
  | [] => .isTrue trivial
  | c :: cs => by
      have := noOpenAtDeletesDec id (step s c) cs
      simp only [noOpenAtDeletes]
      infer_instance

/-- The inductive invariant carried through every command handler for one
device id: interval timestamps never exceed the clock, closed intervals are
well-formed, only the most recent interval may be open, an open interval implies
the id is seen and its record is on, a stored record implies the id is seen,
stored statuses stay in the on/off domain, and records are stored under their
own id. -/
structure Inv (id : String) (s : Sys) : Prop where
  stamps : ∀ p ∈ s.intervals id, p.1 ≤ s.clock
  closedWf : ∀ p ∈ s.intervals id, ∀ e, p.2 = some e → p.1 ≤ e
  prefixClosed : ∀ p ∈ (s.intervals id).dropLast, p.2.isSome = true
  openSeen : ∀ p ∈ s.intervals id, p.2 = none → id ∈ s.seen
  dbSeen : ∀ d, s.db id = some d → id ∈ s.seen
  openOn : ∀ p ∈ s.intervals id, p.2 = none → ∃ d, s.db id = some d ∧ d.status = "on"
  statusDom : ∀ d, s.db id = some d → d.status = "on" ∨ d.status = "off"
  dbKeyAll : ∀ j d, s.db j = some d → d.id = j

/-- Equality of the interval/seen/store/counter portion of two states; the
metadata and status gauges are the only fields allowed to differ. -/
def coreEq (s t : Sys) : Prop :=
  s.clock = t.clock ∧ s.seen = t.seen ∧ s.intervals = t.intervals ∧
  s.db = t.db ∧ s.onEvents = t.onEvents ∧ s.usage = t.usage

/-- A per-device analytics entry holding only a usage figure. -/
def entryU (q : Rat) : DevEntry := { usageMin := some q, onEv := none }

/-- The ledger used by the analytics counterexample: one interval for "d1"
opened at time 10 and still open. -/
def cexLedger : String → List (Int × Option Int) :=
  fun i => if i = "d1" then [((10 : Int), (none : Option Int))] else []

/-- The report built for a window with no samples: zero totals, no devices. -/
def zeroReport (f t : Int) (n : Nat) : Report where
  windowFrom := f
  windowTo := t
  totalDevices := n
  totalOnEvents := 0
  totalUsageMinutes := 0
  onDevices := []

/-- Sample devices used by the concrete counterexample traces. -/
def devOn : Device :=
  { id := "d", type := "light", room := "r1", name := "n1", status := "on",
    parameters := [] }

/-- The same device posted in the off state. -/
def devOff : Device :=
  { id := "d", type := "light", room := "r1", name := "n1", status := "off",
    parameters := [] }

/-! ## Theorems -/

theorem pyStr_ne_pyStr_not (b : Bool) : pyStr b ≠ pyStr (!b) := by
  cases b <;> decide

/-- C10: the claim says a get of a missing id yields a client-visible 4xx
not-found failure; the code instead evaluates the membership test on `None`
first and raises `TypeError`, so the 400 branch is dead for missing records
and the request ends in an uncaught internal error. -/
theorem C10_get_missing_raises (s : Sys) (device_id : String)
    (h : s.db device_id = none) :
    (get_device s device_id).2 =
      HttpOutcome.pythonError "TypeError: argument of type NoneType is not iterable" := by
  simp [get_device, h]

theorem C10_get_missing_raises_witness :
    (get_device init "ghost").2 =
      HttpOutcome.pythonError "TypeError: argument of type NoneType is not iterable" :=
  C10_get_missing_raises init "ghost" rfl

/-- C3: the claim says each categorical AC parameter sets, for every category
of its enum, the gauge labelled with that category to 1 or 0. The `mode` arm
does, but the `fan_speed` and `swing` loops label every write with the
incoming value (`mode=value` in the source), so after setting `fan_speed` to
"low" the series labelled "low" ends at 0 (the later loop iterations
overwrite it) and no other category series is written at all. -/
theorem C3_fan_speed_projection_bug :
    ¬ exactlyOneCategory
        (device_metrics_action_ac acInit "ac1" "fan_speed" (PValue.str "low")).1.ac_fan_status
        "ac1" ["off", "low", "medium", "high"] "low" := by decide

/-- C4: the claim says a failure of either backend query fails the whole
analytics call; the second guard re-tests `usage_results` for the error key,
so a failed event query combined with a successful usage query produces a
(partial) 200 report rather than the upstream-query failure. -/
theorem C4_event_failure_partial_report :
    ∃ r, device_analytics 50 (some 0) (some 100) (QueryRes.ok [(some "d1", some 300)])
        (QueryRes.err "connection refused") (fun _ => []) 1 = AnalyticsOutcome.ok r ∧
      r.onDevices = [("d1", { usageMin := some 5, onEv := none })] ∧
      r.totalUsageMinutes = 5 ∧ r.totalOnEvents = 0 := by
  refine ⟨_, rfl, ?_, ?_, rfl⟩ <;>
    norm_num [device_analytics, analyticsUsageLoop, analyticsEventLoop, setDefaultUpd,
      get_device_on_interval_at_time]

/-- C6: for a boolean value the projection writes the `str(v)` label to 1 and
the `str(not v)` label to 0 (so the pair sums to exactly 1), and every
non-boolean value is rejected with no gauge write. -/
theorem C6_binary_flag_pairing (m : GaugeMap) (device_id : String) (v : PValue) :
    (∃ b, v = PValue.bool b ∧
      (flip_device_boolean_flag m device_id v).2 = true ∧
      (flip_device_boolean_flag m device_id v).1 (device_id, pyStr b) = some 1 ∧
      (flip_device_boolean_flag m device_id v).1 (device_id, pyStr (!b)) = some 0) ∨
    ((∀ b, v ≠ PValue.bool b) ∧ flip_device_boolean_flag m device_id v = (m, false)) := by
  cases v with
  | bool b =>
      left
      refine ⟨b, rfl, rfl, ?_, ?_⟩
      · show (fset (fset m (device_id, pyStr b) (some 1)) (device_id, pyStr (!b)) (some 0))
          (device_id, pyStr b) = some 1
        rw [fset_other _ _ _ _ (by simpa using pyStr_ne_pyStr_not b), fset_self]
      · exact fset_self _ _ _
  | num n => exact Or.inr ⟨(fun b h => by cases h), rfl⟩
  | str s => exact Or.inr ⟨(fun b h => by cases h), rfl⟩

theorem C6_binary_flag_pairing_witness :
    (flip_device_boolean_flag (fun _ => none) "w1" (PValue.bool true)).1 ("w1", "True") = some 1 ∧
    (flip_device_boolean_flag (fun _ => none) "w1" (PValue.bool true)).1 ("w1", "False") = some 0 := by
  rcases C6_binary_flag_pairing (fun _ => none) "w1" (PValue.bool true) with
    ⟨b, hb, _, h1, h0⟩ | ⟨h, _⟩
  · obtain rfl : true = b := by injection hb
    exact ⟨h1, h0⟩
  · exact absurd rfl (h true)

/-- C7: the analytics window guard rejects with the invalid-window error
exactly when `from >= to` (regardless of anything the backend would return),
and any `from < to` window succeeds even with no devices and no samples,
producing the empty report with zero totals. -/
theorem C7_window_validation (now f t : Int) (usageQ eventQ : QueryRes)
    (ledger : String → List (Int × Option Int)) (n : Nat) :
    (device_analytics now (some f) (some t) usageQ eventQ ledger n =
        AnalyticsOutcome.invalidWindow ↔ t ≤ f) ∧
    (f < t →
      device_analytics now (some f) (some t) (QueryRes.ok []) (QueryRes.ok []) ledger 0 =
        AnalyticsOutcome.ok (zeroReport f t 0)) := by
  constructor
  · unfold device_analytics
    by_cases h : f ≥ t
    · simp only [Option.getD_some, if_pos h]
      exact ⟨fun _ => h, fun _ => trivial⟩
    · simp only [Option.getD_some, if_neg h]
      constructor
      · intro hcontra
        cases usageQ <;> simp_all
      · intro hle; exact absurd hle h
  · intro h
    unfold device_analytics
    simp only [Option.getD_some, if_neg (not_le.mpr h)]
    rfl

/-- C5 counterexample: with the current time 50, window [0, 100] and an
interval open since 10, the claim computes an effective end of min(now, to) =
50 and hence extra usage 40s on top of the 0s counter value; the code uses
the window end 100 as the effective end of the open interval and reports 90s
= 3/2 minutes, so the claim is false at this input. -/
theorem C5_open_clamp_counterexample :
    (∃ r, device_analytics 50 (some 0) (some 100) (QueryRes.ok [(some "d1", some 0)])
        (QueryRes.ok []) cexLedger 1 = AnalyticsOutcome.ok r ∧
      r.onDevices = [("d1", entryU (3 / 2))]) ∧
    specClampedExtra 50 0 100 10 none = 40 ∧
    ((3 / 2 : Rat) ≠ 0 / 60 + 40 / 60) := by
  refine ⟨⟨_, rfl, ?_⟩, by decide, by norm_num⟩
  norm_num [device_analytics, analyticsUsageLoop, analyticsEventLoop, setDefaultUpd,
    get_device_on_interval_at_time, hasKey, cexLedger, entryU]

/-- C5 amended: the clamped overlap added for a device with an interval found
at the window end uses effective start max(interval start, from) and
effective end min(interval end, to) for a closed interval but min(to, to) =
to — the window end, not the current time — for a still-open interval. -/
theorem C5_extra_usage_amended (now f t : Int) (did : String) (u : Rat)
    (ledger : String → List (Int × Option Int)) (n : Nat) (onT : Int) (offT : Option Int)
    (hw : f < t)
    (hint : get_device_on_interval_at_time (ledger did) t = some (onT, offT)) :
    ∃ r, device_analytics now (some f) (some t) (QueryRes.ok [(some did, some u)])
        (QueryRes.ok []) ledger n = AnalyticsOutcome.ok r ∧
      r.onDevices =
        [(did, entryU (u / 60 + ((min (offT.getD t) t - max onT f : Int) : Rat) / 60))] := by
  unfold device_analytics
  simp only [Option.getD_some, if_neg (not_le.mpr hw)]
  refine ⟨_, rfl, ?_⟩
  simp [analyticsUsageLoop, analyticsEventLoop, setDefaultUpd, hasKey, hint, entryU]

theorem C5_extra_usage_amended_witness :
    ∃ r, device_analytics 50 (some 0) (some 100) (QueryRes.ok [(some "d1", some 0)])
        (QueryRes.ok []) cexLedger 1 = AnalyticsOutcome.ok r ∧
      r.onDevices =
        [("d1", entryU ((0 : Rat) / 60 +
          ((min ((none : Option Int).getD 100) 100 - max 10 0 : Int) : Rat) / 60))] :=
  C5_extra_usage_amended 50 0 100 "d1" 0 cexLedger 1 10 none (by decide) (by decide)

theorem C7_window_validation_witness :
    (device_analytics 9 (some 3) (some 3) (QueryRes.ok []) (QueryRes.ok []) (fun _ => []) 0 =
        AnalyticsOutcome.invalidWindow) ∧
    (device_analytics 9 (some 1) (some 3) (QueryRes.ok []) (QueryRes.ok []) (fun _ => []) 0 =
        AnalyticsOutcome.ok (zeroReport 1 3 0)) :=
  ⟨(C7_window_validation 9 3 3 (QueryRes.ok []) (QueryRes.ok []) (fun _ => []) 0).1.mpr
      (by decide),
   (C7_window_validation 9 1 3 (QueryRes.ok []) (QueryRes.ok []) (fun _ => []) 0).2
      (by decide)⟩

theorem knownStates_lookup_on : knownStates.lookup "on" = some "off" := rfl

theorem ubds_frame (s : Sys) (d : Device) (ns : String) :
    (update_binary_device_status s d ns).1.clock = s.clock ∧
    (update_binary_device_status s d ns).1.seen = s.seen ∧
    (update_binary_device_status s d ns).1.db = s.db ∧
    ∀ j, j ≠ d.id → (update_binary_device_status s d ns).1.intervals j = s.intervals j := by
  unfold update_binary_device_status
  cases hl : knownStates.lookup ns with
  | none => exact ⟨rfl, rfl, rfl, fun j h => rfl⟩
  | some other =>
    dsimp only
    by_cases h1 : ns = "on" ∧ (d.id ∉ s.seen ∨ d.status = "off")
    · rw [if_pos h1]
      have h2 : ¬(ns = "off" ∧ d.status = "on") := by
        rintro ⟨ha, _⟩; rw [h1.1] at ha; exact absurd ha (by decide)
      rw [if_neg h2]
      exact ⟨rfl, rfl, rfl, fun j h => by simp [setStatusGauge, fset_other _ _ _ _ h]⟩
    · rw [if_neg h1]
      by_cases h2 : ns = "off" ∧ d.status = "on"
      · rw [if_pos h2]
        split
        · exact ⟨rfl, rfl, rfl, fun j h => rfl⟩
        · exact ⟨rfl, rfl, rfl, fun j h => by simp [setStatusGauge, fset_other _ _ _ _ h]⟩
      · rw [if_neg h2]
        exact ⟨rfl, rfl, rfl, fun j h => by simp [setStatusGauge]⟩

theorem ubds_onEvents_unseen (s : Sys) (d : Device) (ns : String) (h : d.id ∉ s.seen) :
    (update_binary_device_status s d ns).1.onEvents = s.onEvents := by
  unfold update_binary_device_status
  cases hl : knownStates.lookup ns with
  | none => rfl
  | some other =>
    dsimp only
    by_cases h1 : ns = "on" ∧ (d.id ∉ s.seen ∨ d.status = "off")
    · rw [if_pos h1]
      have h2 : ¬(ns = "off" ∧ d.status = "on") := by
        rintro ⟨ha, _⟩; rw [h1.1] at ha; exact absurd ha (by decide)
      rw [if_neg h2]
      simp [setStatusGauge, if_neg h]
    · rw [if_neg h1]
      by_cases h2 : ns = "off" ∧ d.status = "on"
      · rw [if_pos h2]
        split
        · rfl
        · rfl
      · rw [if_neg h2]
        rfl

theorem ubds_self (s : Sys) (d : Device) (h : d.id ∉ s.seen) :
    (update_binary_device_status s d d.status).2 = true ∧
    (update_binary_device_status s d d.status).1.onEvents = s.onEvents ∧
    (update_binary_device_status s d d.status).1.usage = s.usage ∧
    (update_binary_device_status s d d.status).1.intervals d.id =
      (if d.status = "on" then s.intervals d.id ++ [(s.clock, none)] else s.intervals d.id) := by
  have hclose : ¬(d.status = "off" ∧ d.status = "on") := by
    rintro ⟨a, b⟩; rw [a] at b; exact absurd b (by decide)
  by_cases hon : d.status = "on"
  · unfold update_binary_device_status
    rw [hon, knownStates_lookup_on]
    simp [h, hclose, setStatusGauge, fset_self, hon]
  · unfold update_binary_device_status
    cases hl : knownStates.lookup d.status with
    | none => simp [hon]
    | some other =>
      have h1 : ¬(d.status = "on" ∧ (d.id ∉ s.seen ∨ d.status = "off")) :=
        fun hc => hon hc.1
      simp [h1, hclose, setStatusGauge, hon]

theorem udm_nil (s : Sys) (d : Device) : update_device_metrics s d [] = (s, true) := rfl

theorem udm_mark_fields (s : Sys) (d : Device) :
    update_device_metrics s d [("name", d.name), ("room", d.room), ("status", d.status)] =
      update_binary_device_status { s with metaG := markMetaG s d } d d.status := by
  simp only [update_device_metrics, markMetaG, String.reduceEq, if_true, if_false,
    ite_true, ite_false, or_self, or_true, true_or, or_false, false_or]
  split
  · next s1 heq => rw [← heq]
  · next s1 heq => rw [← heq]

theorem mark_run (s : Sys) (d : Device) (h1 : d.id ≠ "") (h2 : d.id ∉ s.seen)
    (hp : d.parameters.any (fun kv => device_metrics_action_raises d kv.1 kv.2) = false) :
    ∃ t, mark_device_read s d = (t, true) ∧
      t.clock = s.clock ∧ t.seen = d.id :: s.seen ∧ t.db = s.db ∧
      t.onEvents = s.onEvents ∧ t.usage = s.usage ∧
      (∀ j, j ≠ d.id → t.intervals j = s.intervals j) ∧
      t.intervals d.id =
        (if d.status = "on" then s.intervals d.id ++ [(s.clock, none)] else s.intervals d.id) := by
  have h2' : d.id ∉ (Sys.mk s.clock s.seen s.intervals s.db s.onEvents s.usage s.statusG
      (markMetaG s d)).seen := h2
  have hudm := udm_mark_fields s d
  obtain ⟨hfl, hoe, hus, hiv⟩ := ubds_self _ d h2'
  obtain ⟨fc, fs, fd, fiv⟩ := ubds_frame { s with metaG := markMetaG s d } d d.status
  unfold mark_device_read
  rw [if_pos ⟨h1, h2⟩]
  dsimp only
  rw [hudm]
  cases hu2 : update_binary_device_status { s with metaG := markMetaG s d } d d.status with
  | mk t0 fl =>
    rw [hu2] at hfl hoe hus hiv fc fs fd fiv
    dsimp only at hfl hoe hus hiv fc fs fd fiv
    cases fl with
    | false => exact absurd hfl (by decide)
    | true =>
      have hseen : d.id ∉ t0.seen := by rw [fs]; exact h2'
      dsimp only
      rw [hp, if_neg (by decide : ¬(false = true))]
      rw [if_neg hseen]
      refine ⟨_, rfl, ?_, ?_, ?_, ?_, ?_, ?_, ?_⟩
      · show t0.clock = s.clock
        rw [fc]
      · show d.id :: t0.seen = d.id :: s.seen
        rw [fs]
      · show t0.db = s.db
        rw [fd]
      · show t0.onEvents = s.onEvents
        rw [hoe]
      · show t0.usage = s.usage
        rw [hus]
      · intro j hj
        show t0.intervals j = s.intervals j
        rw [fiv j hj]
      · show t0.intervals d.id = _
        exact hiv

theorem mark_state (s : Sys) (d : Device) (h1 : d.id ≠ "") (h2 : d.id ∉ s.seen) :
    ∃ t fl, mark_device_read s d = (t, fl) ∧
      t.clock = s.clock ∧ (∀ x ∈ s.seen, x ∈ t.seen) ∧ t.db = s.db ∧
      t.onEvents = s.onEvents ∧ t.usage = s.usage ∧
      (∀ j, j ≠ d.id → t.intervals j = s.intervals j) ∧
      t.intervals d.id =
        (if d.status = "on" then s.intervals d.id ++ [(s.clock, none)]
         else s.intervals d.id) := by
  by_cases hcl : d.parameters.any (fun kv => device_metrics_action_raises d kv.1 kv.2) = false
  · obtain ⟨t, hmark, hc, hs, hd2, he, hu2, hj, hiv⟩ := mark_run s d h1 h2 hcl
    exact ⟨t, true, hmark, hc,
      (fun x hx => by rw [hs]; exact List.mem_cons_of_mem _ hx),
      hd2, he, hu2, hj, hiv⟩
  · have hpc : d.parameters.any (fun kv => device_metrics_action_raises d kv.1 kv.2) = true := by
      cases hx : d.parameters.any (fun kv => device_metrics_action_raises d kv.1 kv.2) with
      | false => exact absurd hx hcl
      | true => rfl
    have h2' : d.id ∉ (Sys.mk s.clock s.seen s.intervals s.db s.onEvents s.usage s.statusG
        (markMetaG s d)).seen := h2
    have hudm := udm_mark_fields s d
    obtain ⟨hfl, hoe, hus, hiv⟩ := ubds_self _ d h2'
    obtain ⟨fc, fs, fd, fiv⟩ := ubds_frame { s with metaG := markMetaG s d } d d.status
    unfold mark_device_read
    rw [if_pos ⟨h1, h2⟩]
    dsimp only
    rw [hudm]
    cases hu2 : update_binary_device_status { s with metaG := markMetaG s d } d d.status with
    | mk t0 fl =>
      rw [hu2] at hfl hoe hus hiv fc fs fd fiv
      dsimp only at hfl hoe hus hiv fc fs fd fiv
      cases fl with
      | false => exact absurd hfl (by decide)
      | true =>
        dsimp only
        rw [hpc, if_pos rfl]
        refine ⟨t0, false, rfl, ?_, ?_, ?_, ?_, ?_, ?_, ?_⟩
        · show t0.clock = s.clock
          rw [fc]
        · intro x hx
          show x ∈ t0.seen
          rw [fs]; exact hx
        · show t0.db = s.db
          rw [fd]
        · show t0.onEvents = s.onEvents
          rw [hoe]
        · show t0.usage = s.usage
          rw [hus]
        · intro j hj
          show t0.intervals j = s.intervals j
          rw [fiv j hj]
        · show t0.intervals d.id = _
          exact hiv

theorem mark_skip (s : Sys) (d : Device) (h : d.id = "" ∨ d.id ∈ s.seen) :
    mark_device_read s d = (s, true) := by
  unfold mark_device_read
  rw [if_neg]
  rintro ⟨ha, hb⟩
  rcases h with h | h
  · exact ha h
  · exact hb h

/-- C8: a transition to the active value increments the on-event counter only
when the id is already in the seen-device set at transition time; in
particular the very first on transition of a freshly posted active device
leaves every on-event counter unchanged while still opening a usage
interval. -/
theorem C8_first_on_not_counted :
    (∀ (s : Sys) (d : Device) (ns : String) (k : String × String),
      (update_binary_device_status s d ns).1.onEvents k ≠ s.onEvents k → d.id ∈ s.seen) ∧
    (∀ (s : Sys) (d : Device), d.id ≠ "" → d.id ∉ s.seen → s.db d.id = none →
      d.status = "on" →
      (applyCmd s (Cmd.httpPost d)).onEvents = s.onEvents ∧
      (applyCmd s (Cmd.httpPost d)).intervals d.id = s.intervals d.id ++ [(s.clock, none)]) := by
  constructor
  · intro s d ns k hne
    by_contra hmem
    exact hne (by rw [ubds_onEvents_unseen s d ns hmem])
  · intro s d h1 h2 hdb hon
    have hform : applyCmd s (Cmd.httpPost d) = add_device s d := rfl
    rw [hform]
    unfold add_device
    rw [hdb]
    rw [if_neg (by decide : ¬((none : Option Device).isSome = true))]
    dsimp only
    obtain ⟨t, fl, hmark, hc, hs, hd, he, hu, hj, hiv⟩ :=
      mark_state { s with db := fset s.db d.id (some d) } d h1 h2
    rw [hmark]
    dsimp only at he hiv ⊢
    rw [hiv, if_pos hon]
    exact ⟨he, rfl⟩

theorem C8_first_on_not_counted_witness :
    ((update_binary_device_status init devOn "on").1.onEvents ("d", "light") ≠
        init.onEvents ("d", "light") → "d" ∈ init.seen) ∧
    ((applyCmd init (Cmd.httpPost devOn)).onEvents = init.onEvents ∧
      (applyCmd init (Cmd.httpPost devOn)).intervals "d" =
        init.intervals "d" ++ [(0, none)]) :=
  ⟨C8_first_on_not_counted.1 init devOn "on" ("d", "light"),
   C8_first_on_not_counted.2 init devOn (by decide) (by decide) rfl rfl⟩

/-- C9 counterexample: a PUT payload holding the field "id" (matching the
target) plus "room" contains a field outside {room, name, status}, so per the
claim the whole command must be rejected with the record unchanged; the HTTP
handler instead pops the id and applies the room change, mutating the
record. -/
theorem C9_illegal_field_counterexample :
    ¬ ((applyCmd (run init [Cmd.httpPost devOff])
          (Cmd.httpPut "d" [("id", "d"), ("room", "kitchen")])).db "d" =
        (run init [Cmd.httpPost devOff]).db "d") := by decide

/-- C9 amended: a payload containing a field outside {room, name, status, id}
is wholly rejected on both ingress paths — no metric write, no store write,
the state is unchanged. (A payload "id" equal to the target id, or empty, is
stripped and the rest applied on the HTTP path, while the MQTT path rejects
any payload carrying an id field through its field filter.) -/
theorem C9_illegal_field_amended (s : Sys) (tid : String)
    (payload : List (String × String)) (kv : String × String) (hmem : kv ∈ payload)
    (hbad : kv.1 ∉ (["room", "name", "status", "id"] : List String)) :
    applyCmd s (Cmd.httpPut tid payload) = s ∧
    applyCmd s (Cmd.mqttUpdate tid payload) = s := by
  have hnotid : kv.1 ≠ "id" := fun h =>
    hbad (h ▸ (by decide : ("id" : String) ∈ ["room", "name", "status", "id"]))
  have hnotallowed : kv.1 ∉ allowedFields := by
    intro h
    apply hbad
    simp only [allowedFields, List.mem_cons, List.not_mem_nil, or_false] at h
    simp only [List.mem_cons, List.not_mem_nil, or_false]
    rcases h with h | h | h
    · exact Or.inl h
    · exact Or.inr (Or.inl h)
    · exact Or.inr (Or.inr (Or.inl h))
  constructor
  · show update_device s tid payload = s
    unfold update_device
    dsimp only
    by_cases hmis : ((payload.lookup "id").getD "") ≠ "" ∧ payload.lookup "id" ≠ some tid
    · rw [if_pos hmis]
    · rw [if_neg hmis]
      have hany : (payload.filter (fun kv => kv.1 ≠ "id")).any
          (fun kv => decide (kv.1 ∉ allowedFields)) = true := by
        rw [List.any_eq_true]
        exact ⟨kv, List.mem_filter.mpr ⟨hmem, decide_eq_true hnotid⟩,
          decide_eq_true hnotallowed⟩
      rw [if_pos hany]
  · show on_message_update s tid payload = s
    unfold on_message_update
    cases hdb : s.db tid with
    | none => rfl
    | some device =>
      dsimp only
      by_cases hmis : (payload.lookup "id").isSome ∧ payload.lookup "id" ≠ some tid
      · rw [if_pos hmis]
      · rw [if_neg hmis]
        have hany : payload.any (fun kv => decide (kv.1 ∉ allowedFields)) = true :=
          List.any_eq_true.mpr ⟨kv, hmem, decide_eq_true hnotallowed⟩
        rw [if_pos hany]

theorem C9_illegal_field_amended_witness :
    applyCmd init (Cmd.httpPut "x" [("brightness", "50")]) = init ∧
    applyCmd init (Cmd.mqttUpdate "x" [("brightness", "50")]) = init :=
  C9_illegal_field_amended init "x" [("brightness", "50")] ("brightness", "50")
    (by decide) (by decide)

/-- C2 counterexample: after posting an active device, the synchronous delete
leaves the opened interval open (no off transition is synthesized on that
path), and the asynchronous delete leaves the id in the seen-device set —
refuting the claimed behaviour of both paths at this input. -/
theorem C2_delete_counterexample :
    ¬ ((∀ p ∈ (applyCmd (run init [Cmd.httpPost devOn]) (Cmd.httpDelete "d")).intervals "d",
          p.2.isSome = true) ∧
       "d" ∉ (applyCmd (run init [Cmd.httpPost devOn]) (Cmd.mqttDelete "d")).seen) := by
  decide

/-- C2 amended: the off synthesis and the seen-set removal are split across
the two paths. The MQTT delete of an active device closes the most recent
ledger interval and credits its duration to the usage counter before removing
the record, but keeps the id in the seen-device set; the HTTP delete removes
the record and the id from the seen-device set (so a later post bootstraps
again) but synthesizes no off transition, leaving ledger and usage counter
untouched. -/
theorem C2_delete_amended :
    (∀ (s : Sys) (tid : String) (d : Device) (lt : Int) (le : Option Int),
      s.db tid = some d → d.id = tid → d.status = "on" →
      (s.intervals tid).getLast? = some (lt, le) →
      (applyCmd s (Cmd.mqttDelete tid)).db tid = none ∧
      (applyCmd s (Cmd.mqttDelete tid)).seen = s.seen ∧
      (applyCmd s (Cmd.mqttDelete tid)).intervals tid =
        (s.intervals tid).dropLast ++ [(lt, some s.clock)] ∧
      (applyCmd s (Cmd.mqttDelete tid)).usage (tid, d.type) =
        s.usage (tid, d.type) + (s.clock - lt)) ∧
    (∀ (s : Sys) (tid : String), (s.db tid).isSome → tid ∈ s.seen → s.seen.Nodup →
      (applyCmd s (Cmd.httpDelete tid)).db tid = none ∧
      tid ∉ (applyCmd s (Cmd.httpDelete tid)).seen ∧
      (applyCmd s (Cmd.httpDelete tid)).intervals = s.intervals ∧
      (applyCmd s (Cmd.httpDelete tid)).usage = s.usage) := by
  constructor
  · intro s tid d lt le hdb hid hon hlast
    subst hid
    unfold applyCmd on_message_delete
    dsimp only
    rw [hdb]
    dsimp only
    rw [if_pos (Option.isSome_some (a := d))]
    rw [if_pos hon]
    unfold update_binary_device_status
    rw [show knownStates.lookup "off" = some "on" from rfl]
    dsimp only
    rw [if_neg (show ¬(("off" : String) = "on" ∧ (d.id ∉ s.seen ∨ d.status = "off")) from
      fun hc => absurd hc.1 (by decide))]
    rw [if_pos (show ("off" : String) = "off" ∧ d.status = "on" from ⟨rfl, hon⟩)]
    rw [hlast]
    dsimp only [setStatusGauge]
    refine ⟨fset_self _ _ _, rfl, ?_, ?_⟩
    · show fset _ d.id _ d.id = _
      rw [fset_self]
    · show fset _ (d.id, d.type) _ (d.id, d.type) = _
      rw [fset_self]
  · intro s tid hdb hseen hnd
    unfold applyCmd delete_device
    dsimp only
    rw [if_pos hdb, if_pos hseen]
    refine ⟨fset_self _ _ _, ?_, rfl, rfl⟩
    intro hmem
    dsimp only at hmem
    exact (hnd.mem_erase_iff.mp hmem).1 rfl

theorem C2_delete_amended_witness :
    (applyCmd (run init [Cmd.httpPost devOn]) (Cmd.mqttDelete "d")).db "d" = none ∧
    "d" ∉ (applyCmd (run init [Cmd.httpPost devOn]) (Cmd.httpDelete "d")).seen :=
  ⟨(C2_delete_amended.1 (run init [Cmd.httpPost devOn]) "d" devOn 0 none
      (by decide) rfl rfl (by decide)).1,
   ((C2_delete_amended.2 (run init [Cmd.httpPost devOn]) "d" (by decide) (by decide)
      (by decide)).2).1⟩

/-- C1 counterexample: post an active device (opens an interval), delete it
synchronously (the open interval survives and the id leaves the seen-device
set), then post it again with status on — the first-seen path opens a second
interval while the first is still open, so the ledger holds two
simultaneously open intervals. -/
theorem C1_interval_invariant_counterexample :
    ¬ (openCount ((run init [Cmd.httpPost devOn, Cmd.httpDelete "d",
        Cmd.httpPost devOn]).intervals "d") ≤ 1) := by decide

theorem getLast?_decomp {α : Type} : ∀ (l : List α) (a : α),
    l.getLast? = some a → l = l.dropLast ++ [a]
  | [], a, h => by cases h
  | [x], a, h => by
      obtain rfl : x = a := by simpa [List.getLast?] using h
      rfl
  | x :: y :: t, a, h => by
      have h' : (y :: t).getLast? = some a := by rwa [List.getLast?_cons_cons] at h
      have ih := getLast?_decomp (y :: t) a h'
      show x :: y :: t = (x :: y :: t).dropLast ++ [a]
      calc x :: y :: t = x :: ((y :: t).dropLast ++ [a]) := by rw [← ih]
        _ = (x :: y :: t).dropLast ++ [a] := by simp

theorem getLast?_mem {α : Type} (l : List α) (a : α) (h : l.getLast? = some a) :
    a ∈ l := by
  rw [getLast?_decomp l a h]
  exact List.mem_append_right _ (List.mem_singleton.mpr rfl)

theorem openCount_eq_zero_iff (l : List (Int × Option Int)) :
    openCount l = 0 ↔ ∀ p ∈ l, p.2.isSome = true := by
  unfold openCount
  rw [List.length_eq_zero, List.filter_eq_nil_iff]
  constructor
  · intro h p hp
    have := h p hp
    cases hv : p.2 with
    | none => rw [hv] at this; exact absurd rfl this
    | some e => rfl
  · intro h p hp
    rw [Option.isNone_iff_eq_none]
    intro hn
    have := h p hp
    rw [hn] at this
    cases this

theorem openCount_le_one_of_prefixClosed :
    ∀ (l : List (Int × Option Int)), (∀ p ∈ l.dropLast, p.2.isSome = true) →
      openCount l ≤ 1
  | [], _ => by decide
  | [p], _ => by
      unfold openCount
      cases hv : p.2 <;> simp [List.filter, hv]
  | p :: q :: t, h => by
      have hp : p.2.isSome = true := h p (by simp)
      have ht : ∀ r ∈ (q :: t).dropLast, r.2.isSome = true := fun r hr =>
        h r (by simp [List.dropLast_cons₂]; exact Or.inr hr)
      have ih := openCount_le_one_of_prefixClosed (q :: t) ht
      unfold openCount at ih ⊢
      rw [List.filter_cons]
      have : p.2.isNone = false := by
        cases hv : p.2
        · rw [hv] at hp; cases hp
        · rfl
      rw [this]
      exact ih

theorem applyUpdate_id (d : Device) : ∀ (p : List (String × String)),
    (applyUpdate d p).id = d.id := by
  suffices h : ∀ (p : List (String × String)) (d0 : Device),
      (applyUpdate d0 p).id = d0.id by intro p; exact h p d
  intro p
  induction p with
  | nil => intro d0; rfl
  | cons kv rest ih =>
      intro d0
      unfold applyUpdate
      rw [List.foldl_cons]
      show (applyUpdate _ rest).id = d0.id
      rw [ih]
      split <;> try rfl
      split <;> try rfl
      split <;> rfl

theorem applyUpdate_status_nostatus (d : Device) :
    ∀ (p : List (String × String)), (∀ kv ∈ p, kv.1 ≠ "status") →
      (applyUpdate d p).status = d.status := by
  suffices h : ∀ (p : List (String × String)) (d0 : Device),
      (∀ kv ∈ p, kv.1 ≠ "status") → (applyUpdate d0 p).status = d0.status by
    intro p hp; exact h p d hp
  intro p
  induction p with
  | nil => intro d0 _; rfl
  | cons kv rest ih =>
      intro d0 hkeys
      unfold applyUpdate
      rw [List.foldl_cons]
      show (applyUpdate _ rest).status = d0.status
      rw [ih _ (fun kv2 h2 => hkeys kv2 (List.mem_cons_of_mem _ h2))]
      have hne := hkeys kv (List.mem_cons_self _ _)
      by_cases h1 : kv.1 = "room"
      · rw [if_pos h1]
      · rw [if_neg h1]
        by_cases h2 : kv.1 = "name"
        · rw [if_pos h2]
        · rw [if_neg h2, if_neg hne]

theorem applyUpdate_append (d : Device) (p q : List (String × String)) :
    applyUpdate d (p ++ q) = applyUpdate (applyUpdate d p) q := by
  unfold applyUpdate
  rw [List.foldl_append]

theorem applyUpdate_status_split (d : Device) (pre post : List (String × String))
    (v : String) (hpost : ∀ kv ∈ post, kv.1 ≠ "status") :
    (applyUpdate d (pre ++ ("status", v) :: post)).status = v := by
  rw [applyUpdate_append]
  set d1 := applyUpdate d pre
  show (applyUpdate d1 (("status", v) :: post)).status = v
  unfold applyUpdate
  rw [List.foldl_cons]
  show (applyUpdate _ post).status = v
  rw [applyUpdate_status_nostatus _ post hpost]
  rfl

theorem payload_split (payload : List (String × String)) (v : String)
    (hnd : (payload.map Prod.fst).Nodup) (hmem : ("status", v) ∈ payload) :
    ∃ pre post, payload = pre ++ ("status", v) :: post ∧
      (∀ kv ∈ pre, kv.1 ≠ "status") ∧ (∀ kv ∈ post, kv.1 ≠ "status") := by
  obtain ⟨pre, post, rfl⟩ := List.append_of_mem hmem
  refine ⟨pre, post, rfl, ?_, ?_⟩
  · intro kv hkv hk
    rw [List.map_append, List.map_cons] at hnd
    have hdis := (List.nodup_append.mp hnd).2.2
    have hmm := List.mem_map_of_mem Prod.fst hkv
    rw [hk] at hmm
    exact hdis hmm (List.mem_cons_self _ _)
  · intro kv hkv hk
    rw [List.map_append, List.map_cons] at hnd
    have hcons := (List.nodup_append.mp hnd).2.1
    have hmm := List.mem_map_of_mem Prod.fst hkv
    rw [hk] at hmm
    exact (List.nodup_cons.mp hcons).1 hmm

theorem coreEq_refl (s : Sys) : coreEq s s := ⟨rfl, rfl, rfl, rfl, rfl, rfl⟩

theorem coreEq_trans {a b c : Sys} (h1 : coreEq a b) (h2 : coreEq b c) : coreEq a c := by
  obtain ⟨x1, x2, x3, x4, x5, x6⟩ := h1
  obtain ⟨y1, y2, y3, y4, y5, y6⟩ := h2
  exact ⟨x1.trans y1, x2.trans y2, x3.trans y3, x4.trans y4, x5.trans y5, x6.trans y6⟩

theorem inv_of_coreEq (id : String) {s t : Sys} (h : coreEq s t) (ht : Inv id t) :
    Inv id s := by
  obtain ⟨hc, hs, hi, hd, _, _⟩ := h
  constructor
  · rw [hi, hc]; exact ht.stamps
  · rw [hi]; exact ht.closedWf
  · rw [hi]; exact ht.prefixClosed
  · rw [hi, hs]; exact ht.openSeen
  · rw [hd, hs]; exact ht.dbSeen
  · rw [hi, hd]; exact ht.openOn
  · rw [hd]; exact ht.statusDom
  · rw [hd]; exact ht.dbKeyAll

theorem inv_init (id : String) : Inv id init := by
  constructor
  · intro p hp; cases hp
  · intro p hp; cases hp
  · intro p hp; cases hp
  · intro p hp; cases hp
  · intro d hd; cases hd
  · intro p hp; cases hp
  · intro d hd; cases hd
  · intro j d hd; cases hd

theorem inv_bump (id : String) (s : Sys) (h : Inv id s) :
    Inv id { s with clock := s.clock + 1 } := by
  refine ⟨?_, h.closedWf, h.prefixClosed, h.openSeen, h.dbSeen, h.openOn,
    h.statusDom, h.dbKeyAll⟩
  intro p hp
  exact le_trans (h.stamps p hp) (by show s.clock ≤ s.clock + 1; omega)

theorem no_open_of_unseen (id : String) (s : Sys) (h : Inv id s) (hseen : id ∉ s.seen) :
    ∀ p ∈ s.intervals id, p.2.isSome = true := by
  intro p hp
  cases he : p.2 with
  | some e => rfl
  | none => exact absurd (h.openSeen p hp he) hseen

theorem no_open_of_status (id : String) (s : Sys) (h : Inv id s)
    (hs : ∀ d, s.db id = some d → d.status ≠ "on") :
    ∀ p ∈ s.intervals id, p.2.isSome = true := by
  intro p hp
  cases he : p.2 with
  | some e => rfl
  | none =>
      obtain ⟨d, hd, hon⟩ := h.openOn p hp he
      exact absurd hon (hs d hd)

theorem ubds_aux (t : Sys) (sg : String × String → Option Int)
    (mg : String × String × String → Option Int) (d : Device) (v : String) :
    coreEq (update_binary_device_status { t with statusG := sg, metaG := mg } d v).1
      (update_binary_device_status t d v).1 ∧
    (update_binary_device_status { t with statusG := sg, metaG := mg } d v).2 =
      (update_binary_device_status t d v).2 := by
  unfold update_binary_device_status
  cases hl : knownStates.lookup v with
  | none => exact ⟨⟨rfl, rfl, rfl, rfl, rfl, rfl⟩, rfl⟩
  | some other =>
    dsimp only
    by_cases h1 : v = "on" ∧ (d.id ∉ t.seen ∨ d.status = "off")
    · rw [if_pos h1, if_pos h1]
      have h2 : ¬(v = "off" ∧ d.status = "on") := by
        rintro ⟨ha, _⟩; rw [h1.1] at ha; exact absurd ha (by decide)
      rw [if_neg h2, if_neg h2]
      exact ⟨⟨rfl, rfl, rfl, rfl, rfl, rfl⟩, rfl⟩
    · rw [if_neg h1, if_neg h1]
      by_cases h2 : v = "off" ∧ d.status = "on"
      · rw [if_pos h2, if_pos h2]
        cases hg : (t.intervals d.id).getLast? with
        | none => exact ⟨⟨rfl, rfl, rfl, rfl, rfl, rfl⟩, rfl⟩
        | some q =>
            obtain ⟨lt, le⟩ := q
            exact ⟨⟨rfl, rfl, rfl, rfl, rfl, rfl⟩, rfl⟩
      · rw [if_neg h2, if_neg h2]
        exact ⟨⟨rfl, rfl, rfl, rfl, rfl, rfl⟩, rfl⟩

theorem udm_core_nostatus (d : Device) :
    ∀ (p : List (String × String)) (s : Sys), (∀ kv ∈ p, kv.1 ≠ "status") →
      coreEq (update_device_metrics s d p).1 s ∧ (update_device_metrics s d p).2 = true
  | [], s, _ => ⟨coreEq_refl s, rfl⟩
  | (k, v) :: rest, s, h => by
      have hk : k ≠ "status" := h (k, v) (List.mem_cons_self _ _)
      have hrest : ∀ kv ∈ rest, kv.1 ≠ "status" := fun kv hm =>
        h kv (List.mem_cons_of_mem _ hm)
      unfold update_device_metrics
      by_cases hnr : k = "name" ∨ k = "room"
      · rw [if_pos hnr]
        obtain ⟨hcore, hfl⟩ := udm_core_nostatus d rest _ hrest
        exact ⟨coreEq_trans hcore ⟨rfl, rfl, rfl, rfl, rfl, rfl⟩, hfl⟩
      · rw [if_neg hnr, if_neg hk]
        exact udm_core_nostatus d rest s hrest

theorem udm_with_status (d : Device) (v : String) :
    ∀ (pre : List (String × String)) (post : List (String × String)) (s : Sys),
      (∀ kv ∈ pre, kv.1 ≠ "status") → (∀ kv ∈ post, kv.1 ≠ "status") →
      coreEq (update_device_metrics s d (pre ++ ("status", v) :: post)).1
        (update_binary_device_status s d v).1 ∧
      (update_device_metrics s d (pre ++ ("status", v) :: post)).2 =
        (update_binary_device_status s d v).2
  | [], post, s, _, hpost => by
      rw [List.nil_append]
      unfold update_device_metrics
      rw [if_neg (by decide : ¬(("status" : String) = "name" ∨ ("status" : String) = "room"))]
      rw [if_pos (rfl : ("status" : String) = "status")]
      cases hu : update_binary_device_status s d v with
      | mk s1 fl =>
          cases fl with
          | true =>
              dsimp only
              obtain ⟨hcore, hfl⟩ := udm_core_nostatus d post s1 hpost
              exact ⟨hcore, hfl⟩
          | false => exact ⟨coreEq_refl s1, rfl⟩
  | (k, vv) :: pre, post, s, hpre, hpost => by
      have hk : k ≠ "status" := hpre (k, vv) (List.mem_cons_self _ _)
      have hpre' : ∀ kv ∈ pre, kv.1 ≠ "status" := fun kv hm =>
        hpre kv (List.mem_cons_of_mem _ hm)
      rw [List.cons_append]
      unfold update_device_metrics
      by_cases hnr : k = "name" ∨ k = "room"
      · rw [if_pos hnr]
        obtain ⟨hcore, hfl⟩ := udm_with_status d v pre post _ hpre' hpost
        obtain ⟨hcore2, hfl2⟩ := ubds_aux s s.statusG _ d v
        exact ⟨coreEq_trans hcore hcore2, hfl.trans hfl2⟩
      · rw [if_neg hnr, if_neg hk]
        exact udm_with_status d v pre post s hpre' hpost

theorem udm_frame (d : Device) :
    ∀ (p : List (String × String)) (s : Sys),
      (update_device_metrics s d p).1.clock = s.clock ∧
      (update_device_metrics s d p).1.seen = s.seen ∧
      (update_device_metrics s d p).1.db = s.db ∧
      ∀ j, j ≠ d.id → (update_device_metrics s d p).1.intervals j = s.intervals j
  | [], s => ⟨rfl, rfl, rfl, fun _ _ => rfl⟩
  | (k, v) :: rest, s => by
      unfold update_device_metrics
      by_cases hnr : k = "name" ∨ k = "room"
      · rw [if_pos hnr]
        exact udm_frame d rest _
      · rw [if_neg hnr]
        by_cases hst : k = "status"
        · rw [if_pos hst]
          obtain ⟨fc, fs, fd, fj⟩ := ubds_frame s d v
          cases hu : update_binary_device_status s d v with
          | mk s1 fl =>
              rw [hu] at fc fs fd fj
              dsimp only at fc fs fd fj
              cases fl with
              | true =>
                  dsimp only
                  obtain ⟨gc, gs, gd, gj⟩ := udm_frame d rest s1
                  exact ⟨gc.trans fc, gs.trans fs, gd.trans fd,
                    fun j hj => (gj j hj).trans (fj j hj)⟩
              | false => exact ⟨fc, fs, fd, fj⟩
        · rw [if_neg hst]
          exact udm_frame d rest s

theorem on_message_post_noop (s : Sys) (i : String) (d : Device) :
    on_message_post s i d = s := by
  unfold on_message_post
  cases hdbi : s.db i with
  | none => rfl
  | some dev =>
    dsimp only
    by_cases hne : d.id ≠ i
    · rw [if_pos hne]
    · rw [if_neg hne]
      push_neg at hne
      rw [if_pos (show (s.db d.id).isSome = true by rw [hne, hdbi]; rfl)]

theorem ubds_on_seen (s : Sys) (device : Device) (hseen : device.id ∈ s.seen) :
    (update_binary_device_status s device "on").2 = true ∧
    (update_binary_device_status s device "on").1.intervals device.id =
      (if device.status = "off" then s.intervals device.id ++ [(s.clock, none)]
       else s.intervals device.id) := by
  unfold update_binary_device_status
  rw [knownStates_lookup_on]
  dsimp only
  have hnoclose : ¬(("on" : String) = "off" ∧ device.status = "on") :=
    fun hc => absurd hc.1 (by decide)
  by_cases hoff : device.status = "off"
  · rw [if_neg hnoclose]
    rw [if_pos (show ("on" : String) = "on" ∧ (device.id ∉ s.seen ∨ device.status = "off")
      from ⟨rfl, Or.inr hoff⟩)]
    rw [if_pos hoff]
    exact ⟨rfl, by dsimp [setStatusGauge]; rw [fset_self]⟩
  · rw [if_neg hnoclose]
    rw [if_neg (show ¬(("on" : String) = "on" ∧ (device.id ∉ s.seen ∨ device.status = "off"))
      from fun hc => hc.2.elim (fun hn => hn hseen) hoff)]
    rw [if_neg hoff]
    exact ⟨rfl, rfl⟩

theorem ubds_off_on (s : Sys) (device : Device) (hon : device.status = "on") :
    ((s.intervals device.id).getLast? = none →
      update_binary_device_status s device "off" = (s, false)) ∧
    (∀ lt le, (s.intervals device.id).getLast? = some (lt, le) →
      (update_binary_device_status s device "off").2 = true ∧
      (update_binary_device_status s device "off").1.intervals device.id =
        (s.intervals device.id).dropLast ++ [(lt, some s.clock)]) := by
  unfold update_binary_device_status
  rw [show knownStates.lookup "off" = some "on" from rfl]
  dsimp only
  rw [if_neg (show ¬(("off" : String) = "on" ∧ (device.id ∉ s.seen ∨ device.status = "off"))
    from fun hc => absurd hc.1 (by decide))]
  rw [if_pos (show ("off" : String) = "off" ∧ device.status = "on" from ⟨rfl, hon⟩)]
  constructor
  · intro hnone
    rw [hnone]
  · intro lt le hlast
    rw [hlast]
    exact ⟨rfl, by dsimp [setStatusGauge]; rw [fset_self]⟩

theorem ubds_off_noton (s : Sys) (device : Device) (hnoton : device.status ≠ "on") :
    (update_binary_device_status s device "off").2 = true ∧
    (update_binary_device_status s device "off").1.intervals device.id =
      s.intervals device.id := by
  unfold update_binary_device_status
  rw [show knownStates.lookup "off" = some "on" from rfl]
  dsimp only
  rw [if_neg (show ¬(("off" : String) = "on" ∧ (device.id ∉ s.seen ∨ device.status = "off"))
    from fun hc => absurd hc.1 (by decide))]
  rw [if_neg (show ¬(("off" : String) = "off" ∧ device.status = "on") from
    fun hc => hnoton hc.2)]
  exact ⟨rfl, rfl⟩

theorem fset_same_val {α β : Type} [DecidableEq α] (f : α → β) (a : α) :
    fset f a (f a) = f := by
  funext x
  unfold fset
  split
  · next h => rw [h]
  · rfl

theorem inv_master (id i : String) (s u : Sys) (hinv : Inv id s) (dbv : Option Device)
    (hdb : u.db = fset s.db i dbv)
    (hkey : ∀ d, dbv = some d → d.id = i)
    (hclock : u.clock = s.clock)
    (hseen : i ≠ id → id ∈ s.seen → id ∈ u.seen)
    (l' : List (Int × Option Int)) (hiv : u.intervals id = l')
    (hstamps : ∀ p ∈ l', p.1 ≤ s.clock)
    (hwf : ∀ p ∈ l', ∀ e, p.2 = some e → p.1 ≤ e)
    (hpref : ∀ p ∈ l'.dropLast, p.2.isSome = true)
    (hopenSeen : (∃ p ∈ l', p.2 = none) → id ∈ u.seen)
    (hopenOn : (∃ p ∈ l', p.2 = none) → ∃ d, u.db id = some d ∧ d.status = "on")
    (hdbSeenNew : i = id → ∀ d, dbv = some d → id ∈ u.seen)
    (hstatNew : i = id → ∀ d, dbv = some d → d.status = "on" ∨ d.status = "off") :
    Inv id u := by
  constructor
  · intro p hp; rw [hclock]; exact hstamps p (hiv ▸ hp)
  · intro p hp; exact hwf p (hiv ▸ hp)
  · intro p hp; rw [hiv] at hp; exact hpref p hp
  · intro p hp hpo; exact hopenSeen ⟨p, hiv ▸ hp, hpo⟩
  · intro d hd
    rw [hdb] at hd
    by_cases hii : i = id
    · subst hii; rw [fset_self] at hd; exact hdbSeenNew rfl d hd
    · rw [fset_other _ _ _ _ (fun h => hii h.symm)] at hd
      exact hseen hii (hinv.dbSeen d hd)
  · intro p hp hpo; exact hopenOn ⟨p, hiv ▸ hp, hpo⟩
  · intro d hd
    rw [hdb] at hd
    by_cases hii : i = id
    · subst hii; rw [fset_self] at hd; exact hstatNew rfl d hd
    · rw [fset_other _ _ _ _ (fun h => hii h.symm)] at hd
      exact hinv.statusDom d hd
  · intro j d hd
    rw [hdb] at hd
    by_cases hji : j = i
    · subst hji; rw [fset_self] at hd; exact hkey d hd
    · rw [fset_other _ _ _ _ hji] at hd
      exact hinv.dbKeyAll j d hd

theorem inv_vu_other (id i : String) (s : Sys) (device : Device)
    (payload : List (String × String)) (s1 : Sys) (fl : Bool)
    (hinv : Inv id s) (hdk : device.id = i) (hii : i ≠ id)
    (hnewid : (applyUpdate device payload).id = i)
    (hudm : update_device_metrics s device payload = (s1, fl)) :
    (fl = true → Inv id { s1 with db := fset s1.db i (some (applyUpdate device payload)) }) ∧
    (fl = false → Inv id s1) := by
  obtain ⟨fc, fs, fd, fj⟩ := udm_frame device payload s
  rw [hudm] at fc fs fd fj
  dsimp only at fc fs fd fj
  have hivid : s1.intervals id = s.intervals id :=
    fj id (by rw [hdk]; exact fun h => hii h.symm)
  constructor
  · intro _
    refine inv_master id i s _ hinv (some (applyUpdate device payload))
      (by show fset s1.db i _ = _; rw [fd])
      (fun d hdv => by cases hdv; exact hnewid)
      fc
      (fun _ hm => by show id ∈ s1.seen; rw [fs]; exact hm)
      (s.intervals id)
      (by show s1.intervals id = _; exact hivid)
      hinv.stamps hinv.closedWf hinv.prefixClosed
      (fun ⟨p, hp, hpo⟩ => by show id ∈ s1.seen; rw [fs]; exact hinv.openSeen p hp hpo)
      (fun ⟨p, hp, hpo⟩ => by
        obtain ⟨d0, hd0, hst0⟩ := hinv.openOn p hp hpo
        refine ⟨d0, ?_, hst0⟩
        show fset s1.db i _ id = some d0
        rw [fd, fset_other _ _ _ _ (fun h => hii h.symm)]
        exact hd0)
      (fun h => absurd h hii)
      (fun h => absurd h hii)
  · intro _
    refine inv_master id i s s1 hinv (s.db i)
      (by rw [fset_same_val]; exact fd)
      (fun d hdv => hinv.dbKeyAll i d hdv)
      fc
      (fun _ hm => by rw [fs]; exact hm)
      (s.intervals id) hivid
      hinv.stamps hinv.closedWf hinv.prefixClosed
      (fun ⟨p, hp, hpo⟩ => by rw [fs]; exact hinv.openSeen p hp hpo)
      (fun ⟨p, hp, hpo⟩ => by
        obtain ⟨d0, hd0, hst0⟩ := hinv.openOn p hp hpo
        refine ⟨d0, ?_, hst0⟩
        show s1.db id = some d0
        rw [fd]
        exact hd0)
      (fun h => absurd h hii)
      (fun h => absurd h hii)

theorem inv_vu_self_nostatus (i : String) (s : Sys) (device : Device)
    (payload : List (String × String)) (s1 : Sys) (fl : Bool)
    (hinv : Inv i s) (hget : s.db i = some device)
    (hall : ∀ kv ∈ payload, kv.1 ≠ "status")
    (hudm : update_device_metrics s device payload = (s1, fl)) :
    Inv i { s1 with db := fset s1.db i (some (applyUpdate device payload)) } ∧
    fl = true := by
  have hdk : device.id = i := hinv.dbKeyAll i device hget
  have hseen : i ∈ s.seen := hinv.dbSeen device hget
  have hnewid : (applyUpdate device payload).id = i := by rw [applyUpdate_id]; exact hdk
  have hnewstat := applyUpdate_status_nostatus device payload hall
  obtain ⟨hcore, hfl⟩ := udm_core_nostatus device payload s hall
  rw [hudm] at hcore hfl
  dsimp only at hcore hfl
  obtain ⟨hc, hsn, hi, hd, -, -⟩ := hcore
  refine ⟨?_, hfl⟩
  refine inv_master i i s _ hinv (some (applyUpdate device payload))
    (by show fset s1.db i _ = _; rw [hd])
    (fun d hdv => by cases hdv; exact hnewid)
    hc
    (fun _ hm => by show i ∈ s1.seen; rw [hsn]; exact hm)
    (s.intervals i)
    (by show s1.intervals i = _; rw [hi])
    hinv.stamps hinv.closedWf hinv.prefixClosed
    (fun ⟨p, hp, hpo⟩ => by show i ∈ s1.seen; rw [hsn]; exact hseen)
    (fun ⟨p, hp, hpo⟩ => by
      obtain ⟨d0, hd0, hst0⟩ := hinv.openOn p hp hpo
      rw [hget] at hd0
      cases hd0
      refine ⟨applyUpdate device payload, ?_, by rw [hnewstat]; exact hst0⟩
      show fset s1.db i _ i = _
      rw [fset_self])
    (fun _ d hdv => by show i ∈ s1.seen; rw [hsn]; exact hseen)
    (fun _ d hdv => by cases hdv; rw [hnewstat]; exact hinv.statusDom device hget)

theorem inv_vu_self_on (i : String) (s : Sys) (device : Device)
    (pre post : List (String × String)) (s1 : Sys) (fl : Bool)
    (hinv : Inv i s) (hget : s.db i = some device)
    (hpre : ∀ kv ∈ pre, kv.1 ≠ "status") (hpost : ∀ kv ∈ post, kv.1 ≠ "status")
    (hudm : update_device_metrics s device (pre ++ ("status", "on") :: post) = (s1, fl)) :
    Inv i (commitUpdate s1 i (applyUpdate device (pre ++ ("status", "on") :: post))) ∧
    fl = true := by
  have hdk : device.id = i := hinv.dbKeyAll i device hget
  have hseen : i ∈ s.seen := hinv.dbSeen device hget
  have hnewid : (applyUpdate device (pre ++ ("status", "on") :: post)).id = i := by
    rw [applyUpdate_id]; exact hdk
  have hnewstat : (applyUpdate device (pre ++ ("status", "on") :: post)).status = "on" :=
    applyUpdate_status_split device pre post "on" hpost
  obtain ⟨hcore, hfl⟩ := udm_with_status device "on" pre post s hpre hpost
  rw [hudm] at hcore hfl
  dsimp only at hcore hfl
  obtain ⟨hc, hsn, hi, hd, -, -⟩ := hcore
  obtain ⟨fc, fs, fd, fj⟩ := ubds_frame s device "on"
  obtain ⟨honfl, honiv⟩ := ubds_on_seen s device (by rw [hdk]; exact hseen)
  rw [hdk] at honiv
  have hfl' : fl = true := hfl.trans honfl
  refine ⟨?_, hfl'⟩
  by_cases hdoff : device.status = "off"
  · rw [if_pos hdoff] at honiv
    have hnoopen : ∀ p ∈ s.intervals i, p.2.isSome = true :=
      no_open_of_status i s hinv (fun d0 hd0 => by
        rw [hget] at hd0; cases hd0; rw [hdoff]; decide)
    refine inv_master i i s _ hinv
      (some (applyUpdate device (pre ++ ("status", "on") :: post)))
      (by show fset s1.db i _ = _; rw [hd, fd])
      (fun d hdv => by cases hdv; exact hnewid)
      (hc.trans fc)
      (fun _ hm => by show i ∈ s1.seen; rw [hsn, fs]; exact hm)
      (s.intervals i ++ [(s.clock, none)])
      (by show s1.intervals i = _; rw [hi, honiv])
      (fun p hp => (List.mem_append.mp hp).elim (hinv.stamps p)
        (fun hx => by rw [List.mem_singleton.mp hx]))
      (fun p hp e he => (List.mem_append.mp hp).elim
        (fun h0 => hinv.closedWf p h0 e he)
        (fun hx => by rw [List.mem_singleton.mp hx] at he; cases he))
      (by rw [List.dropLast_concat]; exact hnoopen)
      (fun _ => by show i ∈ s1.seen; rw [hsn, fs]; exact hseen)
      (fun _ => ⟨applyUpdate device (pre ++ ("status", "on") :: post),
        by show fset s1.db i _ i = _; rw [fset_self], hnewstat⟩)
      (fun _ d hdv => by show i ∈ s1.seen; rw [hsn, fs]; exact hseen)
      (fun _ d hdv => by cases hdv; rw [hnewstat]; left; rfl)
  · rw [if_neg hdoff] at honiv
    refine inv_master i i s _ hinv
      (some (applyUpdate device (pre ++ ("status", "on") :: post)))
      (by show fset s1.db i _ = _; rw [hd, fd])
      (fun d hdv => by cases hdv; exact hnewid)
      (hc.trans fc)
      (fun _ hm => by show i ∈ s1.seen; rw [hsn, fs]; exact hm)
      (s.intervals i)
      (by show s1.intervals i = _; rw [hi, honiv])
      hinv.stamps hinv.closedWf hinv.prefixClosed
      (fun _ => by show i ∈ s1.seen; rw [hsn, fs]; exact hseen)
      (fun _ => ⟨applyUpdate device (pre ++ ("status", "on") :: post),
        by show fset s1.db i _ i = _; rw [fset_self], hnewstat⟩)
      (fun _ d hdv => by show i ∈ s1.seen; rw [hsn, fs]; exact hseen)
      (fun _ d hdv => by cases hdv; rw [hnewstat]; left; rfl)

theorem inv_vu_self_off (i : String) (s : Sys) (device : Device)
    (pre post : List (String × String)) (s1 : Sys) (fl : Bool)
    (hinv : Inv i s) (hget : s.db i = some device)
    (hpre : ∀ kv ∈ pre, kv.1 ≠ "status") (hpost : ∀ kv ∈ post, kv.1 ≠ "status")
    (hudm : update_device_metrics s device (pre ++ ("status", "off") :: post) = (s1, fl)) :
    (fl = true →
      Inv i (commitUpdate s1 i (applyUpdate device (pre ++ ("status", "off") :: post)))) ∧
    (fl = false → Inv i s1) := by
  have hdk : device.id = i := hinv.dbKeyAll i device hget
  have hseen : i ∈ s.seen := hinv.dbSeen device hget
  have hnewid : (applyUpdate device (pre ++ ("status", "off") :: post)).id = i := by
    rw [applyUpdate_id]; exact hdk
  have hnewstat : (applyUpdate device (pre ++ ("status", "off") :: post)).status = "off" :=
    applyUpdate_status_split device pre post "off" hpost
  obtain ⟨hcore, hfl⟩ := udm_with_status device "off" pre post s hpre hpost
  rw [hudm] at hcore hfl
  dsimp only at hcore hfl
  obtain ⟨hc, hsn, hi, hd, -, -⟩ := hcore
  obtain ⟨fc, fs, fd, fj⟩ := ubds_frame s device "off"
  by_cases hdon : device.status = "on"
  · obtain ⟨hnonec, hsomec⟩ := ubds_off_on s device hdon
    cases hlast : (s.intervals device.id).getLast? with
    | none =>
      have hub := hnonec hlast
      rw [hub] at hc hsn hi hd hfl
      dsimp only at hc hsn hi hd hfl
      constructor
      · intro htt; rw [htt] at hfl; exact absurd hfl (by decide)
      · intro _
        refine inv_master i i s s1 hinv (s.db i)
          (by rw [fset_same_val]; exact hd)
          (fun d hdv => hinv.dbKeyAll i d hdv)
          hc (fun _ hm => by rw [hsn]; exact hm)
          (s.intervals i) (by rw [hi])
          hinv.stamps hinv.closedWf hinv.prefixClosed
          (fun ⟨p, hp, hpo⟩ => by rw [hsn]; exact hinv.openSeen p hp hpo)
          (fun ⟨p, hp, hpo⟩ => by
            obtain ⟨d0, hd0, hst0⟩ := hinv.openOn p hp hpo
            exact ⟨d0, by rw [hd]; exact hd0, hst0⟩)
          (fun _ d hdv => by rw [hsn]; exact hseen)
          (fun _ d hdv => hinv.statusDom d hdv)
    | some lastp =>
      obtain ⟨lt, le⟩ := lastp
      obtain ⟨hofl, hoiv⟩ := hsomec lt le hlast
      have hfl' : fl = true := hfl.trans hofl
      have hlmem : (lt, le) ∈ s.intervals i := by
        rw [← hdk]; exact getLast?_mem _ _ hlast
      rw [hdk] at hoiv
      constructor
      · intro _
        refine inv_master i i s _ hinv
          (some (applyUpdate device (pre ++ ("status", "off") :: post)))
          (by show fset s1.db i _ = _; rw [hd, fd])
          (fun d hdv => by cases hdv; exact hnewid)
          (hc.trans fc)
          (fun _ hm => by show i ∈ s1.seen; rw [hsn, fs]; exact hm)
          ((s.intervals i).dropLast ++ [(lt, some s.clock)])
          (by show s1.intervals i = _; rw [hi, hoiv])
          (fun p hp => (List.mem_append.mp hp).elim
            (fun h0 => hinv.stamps p (List.dropLast_subset _ h0))
            (fun hx => by rw [List.mem_singleton.mp hx]; exact hinv.stamps (lt, le) hlmem))
          (fun p hp e he => (List.mem_append.mp hp).elim
            (fun h0 => hinv.closedWf p (List.dropLast_subset _ h0) e he)
            (fun hx => by
              rw [List.mem_singleton.mp hx] at he ⊢
              cases he
              exact hinv.stamps (lt, le) hlmem))
          (by rw [List.dropLast_concat]
              exact fun p hp => hinv.prefixClosed p hp)
          (fun ⟨p, hp, hpo⟩ => by
            exfalso
            rcases List.mem_append.mp hp with h0 | hx
            · have := hinv.prefixClosed p h0
              rw [hpo] at this; cases this
            · rw [List.mem_singleton.mp hx] at hpo; cases hpo)
          (fun ⟨p, hp, hpo⟩ => by
            exfalso
            rcases List.mem_append.mp hp with h0 | hx
            · have := hinv.prefixClosed p h0
              rw [hpo] at this; cases this
            · rw [List.mem_singleton.mp hx] at hpo; cases hpo)
          (fun _ d hdv => by show i ∈ s1.seen; rw [hsn, fs]; exact hseen)
          (fun _ d hdv => by cases hdv; rw [hnewstat]; right; rfl)
      · intro hff; rw [hff] at hfl'; exact absurd hfl' (by decide)
  · obtain ⟨hofl, hoiv⟩ := ubds_off_noton s device hdon
    rw [hdk] at hoiv
    have hfl' : fl = true := hfl.trans hofl
    constructor
    · intro _
      refine inv_master i i s _ hinv
        (some (applyUpdate device (pre ++ ("status", "off") :: post)))
        (by show fset s1.db i _ = _; rw [hd, fd])
        (fun d hdv => by cases hdv; exact hnewid)
        (hc.trans fc)
        (fun _ hm => by show i ∈ s1.seen; rw [hsn, fs]; exact hm)
        (s.intervals i)
        (by show s1.intervals i = _; rw [hi, hoiv])
        hinv.stamps hinv.closedWf hinv.prefixClosed
        (fun ⟨p, hp, hpo⟩ => by
          show i ∈ s1.seen
          rw [hsn, fs]
          exact hinv.openSeen p hp hpo)
        (fun ⟨p, hp, hpo⟩ => by
          exfalso
          obtain ⟨d0, hd0, hst0⟩ := hinv.openOn p hp hpo
          rw [hget] at hd0; cases hd0; exact hdon hst0)
        (fun _ d hdv => by show i ∈ s1.seen; rw [hsn, fs]; exact hseen)
        (fun _ d hdv => by cases hdv; rw [hnewstat]; right; rfl)
    · intro hff; rw [hff] at hfl'; exact absurd hfl' (by decide)

theorem inv_validated_update (id i : String) (s : Sys) (device : Device)
    (payload : List (String × String)) (s1 : Sys) (fl : Bool)
    (hinv : Inv id s) (hget : s.db i = some device)
    (hnd : (payload.map Prod.fst).Nodup)
    (hstat : i = id → ∀ kv ∈ payload, kv.1 = "status" → kv.2 = "on" ∨ kv.2 = "off")
    (hudm : update_device_metrics s device payload = (s1, fl)) :
    (fl = true → Inv id { s1 with db := fset s1.db i (some (applyUpdate device payload)) }) ∧
    (fl = false → Inv id s1) := by
  by_cases hii : i = id
  · subst hii
    by_cases hex : ∃ kv ∈ payload, kv.1 = "status"
    · obtain ⟨kv, hkvmem, hkvkey⟩ := hex
      have hkveq : kv = ("status", kv.2) := by rw [← hkvkey]
      obtain ⟨pre, post, hsplit, hpre, hpost⟩ :=
        payload_split payload kv.2 hnd (hkveq ▸ hkvmem)
      rcases hstat rfl kv hkvmem hkvkey with hon | hoff
      · rw [hon] at hsplit
        rw [hsplit] at hudm ⊢
        obtain ⟨hi1, hfl⟩ := inv_vu_self_on i s device pre post s1 fl hinv hget hpre hpost hudm
        exact ⟨fun _ => hi1, fun hff => by rw [hff] at hfl; exact absurd hfl (by decide)⟩
      · rw [hoff] at hsplit
        rw [hsplit] at hudm ⊢
        exact inv_vu_self_off i s device pre post s1 fl hinv hget hpre hpost hudm
    · push_neg at hex
      obtain ⟨hi1, hfl⟩ := inv_vu_self_nostatus i s device payload s1 fl hinv hget hex hudm
      exact ⟨fun _ => hi1, fun hff => by rw [hff] at hfl; exact absurd hfl (by decide)⟩
  · exact inv_vu_other id i s device payload s1 fl hinv (hinv.dbKeyAll i device hget) hii
      (by rw [applyUpdate_id]; exact hinv.dbKeyAll i device hget) hudm

theorem applyCmd_inv (id : String) (s : Sys) (c : Cmd) (hinv : Inv id s)
    (hid : id ≠ "") (hwf : wfCmd c) (hst : statusOkFor id c)
    (hpar : paramsOkFor id c)
    (hdel : c = Cmd.httpDelete id → openCount (s.intervals id) = 0) :
    Inv id (applyCmd s c) := by
  cases c with
  | tick => exact hinv
  | httpGet i =>
    show Inv id (get_device s i).1
    unfold get_device
    cases hdbi : s.db i with
    | none => exact hinv
    | some d =>
      dsimp only
      have hdk : d.id = i := hinv.dbKeyAll i d hdbi
      by_cases hmem : d.id ∈ s.seen
      · rw [if_pos hmem]; exact hinv
      · rw [if_neg hmem]
        have hne : i ≠ id := by
          intro hii
          subst hii
          exact hmem (by rw [hdk]; exact hinv.dbSeen d hdbi)
        by_cases hde : d.id = ""
        · rw [mark_skip s d (Or.inl hde)]; exact hinv
        · obtain ⟨t, fl, hmark, hc, hs, hd2, he, hu2, hj, hiv⟩ := mark_state s d hde hmem
          have hInvT : Inv id t := inv_master id i s t hinv (s.db i)
            (by rw [fset_same_val]; exact hd2)
            (fun d0 hd0 => hinv.dbKeyAll i d0 hd0)
            hc
            (fun _ hm => hs _ hm)
            (s.intervals id)
            (by rw [hj id (by rw [hdk]; exact fun h => hne h.symm)])
            hinv.stamps hinv.closedWf hinv.prefixClosed
            (fun ⟨p, hp, hpo⟩ => hs _ (hinv.openSeen p hp hpo))
            (fun ⟨p, hp, hpo⟩ => by
              obtain ⟨d0, hd0, hst0⟩ := hinv.openOn p hp hpo
              exact ⟨d0, by rw [hd2]; exact hd0, hst0⟩)
            (fun h => absurd h hne)
            (fun h => absurd h hne)
          rw [hmark]
          cases fl <;> exact hInvT
  | httpPost d =>
    show Inv id (add_device s d)
    unfold add_device
    by_cases hdup : (s.db d.id).isSome = true
    · rw [if_pos hdup]; exact hinv
    · rw [if_neg hdup]
      dsimp only
      have hdbn : s.db d.id = none := by
        cases hv : s.db d.id
        · rfl
        · rw [hv] at hdup; exact absurd rfl hdup
      by_cases hde : d.id = ""
      · rw [mark_skip _ d (Or.inl hde)]
        refine inv_master id d.id s _ hinv (some d) rfl
          (fun d0 hd0 => by cases hd0; rfl)
          rfl
          (fun _ hm => hm)
          (s.intervals id) rfl
          hinv.stamps hinv.closedWf hinv.prefixClosed
          (fun ⟨p, hp, hpo⟩ => hinv.openSeen p hp hpo)
          (fun ⟨p, hp, hpo⟩ => by
            obtain ⟨d0, hd0, hst0⟩ := hinv.openOn p hp hpo
            by_cases hdi : d.id = id
            · rw [hdi] at hdbn; rw [hdbn] at hd0; cases hd0
            · refine ⟨d0, ?_, hst0⟩
              show fset s.db d.id (some d) id = some d0
              rw [fset_other _ _ _ _ (fun h => hdi h.symm)]
              exact hd0)
          (fun hii _ _ => absurd (hii.symm.trans hde) hid)
          (fun hii _ _ => absurd (hii.symm.trans hde) hid)
      · by_cases hmem : d.id ∈ s.seen
        · rw [mark_skip { s with db := fset s.db d.id (some d) } d (Or.inr hmem)]
          refine inv_master id d.id s _ hinv (some d) rfl
            (fun d0 hd0 => by cases hd0; rfl)
            rfl
            (fun _ hm => hm)
            (s.intervals id) rfl
            hinv.stamps hinv.closedWf hinv.prefixClosed
            (fun ⟨p, hp, hpo⟩ => hinv.openSeen p hp hpo)
            (fun ⟨p, hp, hpo⟩ => by
              obtain ⟨d0, hd0, hst0⟩ := hinv.openOn p hp hpo
              by_cases hdi : d.id = id
              · rw [hdi] at hdbn; rw [hdbn] at hd0; cases hd0
              · refine ⟨d0, ?_, hst0⟩
                show fset s.db d.id (some d) id = some d0
                rw [fset_other _ _ _ _ (fun h => hdi h.symm)]
                exact hd0)
            (fun hii _ _ => by rw [hii] at hmem; exact hmem)
            (fun hii _ hd0 => by cases hd0; exact hst hii)
        · by_cases hdi : d.id = id
          · have hcln : d.parameters.any
                (fun kv => device_metrics_action_raises d kv.1 kv.2) = false := by
              have hq := hpar hdi
              unfold paramsClean at hq
              cases hx : d.parameters.any (fun kv => device_metrics_action_raises d kv.1 kv.2) with
              | false => rfl
              | true => rw [hx] at hq; exact absurd hq (by decide)
            obtain ⟨t, hmark, hc, hs, hd2, he, hu2, hj, hiv⟩ :=
              mark_run { s with db := fset s.db d.id (some d) } d hde hmem hcln
            rw [hmark]
            dsimp only at hc hs hd2 he hu2 hj hiv
            have hnoopen : ∀ p ∈ s.intervals id, p.2.isSome = true := by
              rw [← hdi]
              exact no_open_of_unseen d.id s (hdi ▸ hinv) hmem
            by_cases hdon : d.status = "on"
            · rw [if_pos hdon] at hiv
              refine inv_master id d.id s t hinv (some d)
                (by rw [hd2])
                (fun d0 hd0 => by cases hd0; rfl)
                hc
                (fun _ hm => by rw [hs]; exact List.mem_cons_of_mem _ hm)
                (s.intervals id ++ [(s.clock, none)])
                (by rw [hdi] at hiv; exact hiv)
                (fun p hp => (List.mem_append.mp hp).elim (hinv.stamps p)
                  (fun hx => by rw [List.mem_singleton.mp hx]))
                (fun p hp e he' => (List.mem_append.mp hp).elim
                  (fun h0 => hinv.closedWf p h0 e he')
                  (fun hx => by rw [List.mem_singleton.mp hx] at he'; cases he'))
                (by rw [List.dropLast_concat]; exact hnoopen)
                (fun _ => by rw [hs, hdi]; exact List.mem_cons_self _ _)
                (fun _ => by
                  refine ⟨d, ?_, hdon⟩
                  rw [hd2]
                  show fset s.db d.id (some d) id = some d
                  rw [← hdi, fset_self])
                (fun hii _ _ => by rw [hs, hdi]; exact List.mem_cons_self _ _)
                (fun hii _ hd0 => by cases hd0; exact hst hii)
            · rw [if_neg hdon] at hiv
              refine inv_master id d.id s t hinv (some d)
                (by rw [hd2])
                (fun d0 hd0 => by cases hd0; rfl)
                hc
                (fun _ hm => by rw [hs]; exact List.mem_cons_of_mem _ hm)
                (s.intervals id)
                (by rw [hdi] at hiv; exact hiv)
                hinv.stamps hinv.closedWf hinv.prefixClosed
                (fun _ => by rw [hs, hdi]; exact List.mem_cons_self _ _)
                (fun ⟨p, hp, hpo⟩ => by
                  have := hnoopen p hp
                  rw [hpo] at this
                  cases this)
                (fun hii _ _ => by rw [hs, hdi]; exact List.mem_cons_self _ _)
                (fun hii _ hd0 => by cases hd0; exact hst hii)
          · obtain ⟨t, fl, hmark, hc, hs, hd2, he, hu2, hj, hiv⟩ :=
              mark_state { s with db := fset s.db d.id (some d) } d hde hmem
            rw [hmark]
            dsimp only at hc hs hd2 he hu2 hj hiv
            refine inv_master id d.id s t hinv (some d)
              (by rw [hd2])
              (fun d0 hd0 => by cases hd0; rfl)
              hc
              (fun _ hm => hs _ hm)
              (s.intervals id)
              (by rw [hj id (fun h => hdi h.symm)])
              hinv.stamps hinv.closedWf hinv.prefixClosed
              (fun ⟨p, hp, hpo⟩ => hs _ (hinv.openSeen p hp hpo))
              (fun ⟨p, hp, hpo⟩ => by
                obtain ⟨d0, hd0, hst0⟩ := hinv.openOn p hp hpo
                refine ⟨d0, ?_, hst0⟩
                rw [hd2]
                show fset s.db d.id (some d) id = some d0
                rw [fset_other _ _ _ _ (fun h => hdi h.symm)]
                exact hd0)
              (fun hii => absurd hii hdi)
              (fun hii => absurd hii hdi)
  | httpPut i payload =>
    show Inv id (update_device s i payload)
    unfold update_device
    dsimp only
    by_cases hmis : ((payload.lookup "id").getD "") ≠ "" ∧ payload.lookup "id" ≠ some i
    · rw [if_pos hmis]; exact hinv
    · rw [if_neg hmis]
      by_cases hany : ((payload.filter (fun kv => kv.1 ≠ "id")).any
          (fun kv => decide (kv.1 ∉ allowedFields))) = true
      · rw [if_pos hany]; exact hinv
      · rw [if_neg hany]
        cases hdbi : s.db i with
        | none => exact hinv
        | some device =>
          dsimp only
          have hnd' : ((payload.filter (fun kv => kv.1 ≠ "id")).map Prod.fst).Nodup :=
            ((List.filter_sublist _).map _).nodup hwf
          have hst' : i = id → ∀ kv ∈ payload.filter (fun kv => kv.1 ≠ "id"),
              kv.1 = "status" → kv.2 = "on" ∨ kv.2 = "off" :=
            fun hii kv hm => hst hii kv (List.mem_of_mem_filter hm)
          cases hu : update_device_metrics s device (payload.filter (fun kv => kv.1 ≠ "id")) with
          | mk s1 fl =>
            have hres := inv_validated_update id i s device _ s1 fl hinv hdbi hnd' hst' hu
            cases fl with
            | true => exact hres.1 rfl
            | false => exact hres.2 rfl
  | mqttUpdate i payload =>
    show Inv id (on_message_update s i payload)
    unfold on_message_update
    cases hdbi : s.db i with
    | none => exact hinv
    | some device =>
      dsimp only
      by_cases hmis : (payload.lookup "id").isSome ∧ payload.lookup "id" ≠ some i
      · rw [if_pos hmis]; exact hinv
      · rw [if_neg hmis]
        by_cases hany : (payload.any (fun kv => decide (kv.1 ∉ allowedFields))) = true
        · rw [if_pos hany]; exact hinv
        · rw [if_neg hany]
          cases hu : update_device_metrics s device payload with
          | mk s1 fl =>
            have hres := inv_validated_update id i s device payload s1 fl hinv hdbi hwf
              (fun hii => hst hii) hu
            cases fl with
            | true => exact hres.1 rfl
            | false => exact hres.2 rfl
  | httpDelete i =>
    show Inv id (delete_device s i)
    unfold delete_device
    by_cases hsome : (s.db i).isSome = true
    · rw [if_pos hsome]
      by_cases hmem : i ∈ s.seen
      · rw [if_pos hmem]
        by_cases hii : i = id
        · subst hii
          have hnoopen : ∀ p ∈ s.intervals i, p.2.isSome = true :=
            (openCount_eq_zero_iff _).mp (hdel rfl)
          refine inv_master i i s _ hinv none rfl (fun d0 hd0 => by cases hd0)
            rfl (fun hne _ => absurd rfl hne)
            (s.intervals i) rfl
            hinv.stamps hinv.closedWf hinv.prefixClosed
            (fun ⟨p, hp, hpo⟩ => by have := hnoopen p hp; rw [hpo] at this; cases this)
            (fun ⟨p, hp, hpo⟩ => by have := hnoopen p hp; rw [hpo] at this; cases this)
            (fun _ d0 hd0 => by cases hd0)
            (fun _ d0 hd0 => by cases hd0)
        · refine inv_master id i s _ hinv none rfl (fun d0 hd0 => by cases hd0)
            rfl
            (fun _ hm => (List.mem_erase_of_ne (fun h => hii h.symm)).mpr hm)
            (s.intervals id) rfl
            hinv.stamps hinv.closedWf hinv.prefixClosed
            (fun ⟨p, hp, hpo⟩ =>
              (List.mem_erase_of_ne (fun h => hii h.symm)).mpr (hinv.openSeen p hp hpo))
            (fun ⟨p, hp, hpo⟩ => by
              obtain ⟨d0, hd0, hst0⟩ := hinv.openOn p hp hpo
              refine ⟨d0, ?_, hst0⟩
              show fset s.db i none id = some d0
              rw [fset_other _ _ _ _ (fun h => hii h.symm)]
              exact hd0)
            (fun h => absurd h hii)
            (fun h => absurd h hii)
      · rw [if_neg hmem]; exact hinv
    · rw [if_neg hsome]; exact hinv
  | mqttPost i d =>
    show Inv id (on_message_post s i d)
    rw [on_message_post_noop]
    exact hinv
  | mqttDelete i =>
    show Inv id (on_message_delete s i)
    unfold on_message_delete
    cases hdbi : s.db i with
    | none => exact hinv
    | some device =>
      dsimp only
      rw [if_pos (Option.isSome_some (a := device))]
      have hdk : device.id = i := hinv.dbKeyAll i device hdbi
      by_cases hon : device.status = "on"
      · rw [if_pos hon]
        obtain ⟨hnonec, hsomec⟩ := ubds_off_on s device hon
        cases hlast : (s.intervals device.id).getLast? with
        | none =>
          rw [hnonec hlast]
          exact hinv
        | some lastp =>
          obtain ⟨lt, le⟩ := lastp
          obtain ⟨hofl, hoiv⟩ := hsomec lt le hlast
          obtain ⟨fc, fs, fd, fj⟩ := ubds_frame s device "off"
          cases hu : update_binary_device_status s device "off" with
          | mk t fl =>
            rw [hu] at hofl hoiv fc fs fd fj
            dsimp only at hofl hoiv fc fs fd fj
            subst hofl
            dsimp only
            by_cases hii : i = id
            · subst hii
              have hlmem : (lt, le) ∈ s.intervals i := by
                rw [← hdk]; exact getLast?_mem _ _ hlast
              rw [hdk] at hoiv
              refine inv_master i i s _ hinv none
                (by show fset t.db i none = _; rw [fd])
                (fun d0 hd0 => by cases hd0)
                fc
                (fun hne _ => absurd rfl hne)
                ((s.intervals i).dropLast ++ [(lt, some s.clock)])
                (by show t.intervals i = _; rw [hoiv])
                (fun p hp => (List.mem_append.mp hp).elim
                  (fun h0 => hinv.stamps p (List.dropLast_subset _ h0))
                  (fun hx => by
                    rw [List.mem_singleton.mp hx]
                    exact hinv.stamps (lt, le) hlmem))
                (fun p hp e he' => (List.mem_append.mp hp).elim
                  (fun h0 => hinv.closedWf p (List.dropLast_subset _ h0) e he')
                  (fun hx => by
                    rw [List.mem_singleton.mp hx] at he' ⊢
                    cases he'
                    exact hinv.stamps (lt, le) hlmem))
                (by rw [List.dropLast_concat]
                    exact fun p hp => hinv.prefixClosed p hp)
                (fun ⟨p, hp, hpo⟩ => by
                  exfalso
                  rcases List.mem_append.mp hp with h0 | hx
                  · have := hinv.prefixClosed p h0
                    rw [hpo] at this; cases this
                  · rw [List.mem_singleton.mp hx] at hpo; cases hpo)
                (fun ⟨p, hp, hpo⟩ => by
                  exfalso
                  rcases List.mem_append.mp hp with h0 | hx
                  · have := hinv.prefixClosed p h0
                    rw [hpo] at this; cases this
                  · rw [List.mem_singleton.mp hx] at hpo; cases hpo)
                (fun _ d0 hd0 => by cases hd0)
                (fun _ d0 hd0 => by cases hd0)
            · refine inv_master id i s _ hinv none
                (by show fset t.db i none = _; rw [fd])
                (fun d0 hd0 => by cases hd0)
                fc
                (fun _ hm => by rw [fs]; exact hm)
                (s.intervals id)
                (by
                  show t.intervals id = _
                  exact fj id (by rw [hdk]; exact fun h => hii h.symm))
                hinv.stamps hinv.closedWf hinv.prefixClosed
                (fun ⟨p, hp, hpo⟩ => by rw [fs]; exact hinv.openSeen p hp hpo)
                (fun ⟨p, hp, hpo⟩ => by
                  obtain ⟨d0, hd0, hst0⟩ := hinv.openOn p hp hpo
                  refine ⟨d0, ?_, hst0⟩
                  show fset t.db i none id = some d0
                  rw [fd, fset_other _ _ _ _ (fun h => hii h.symm)]
                  exact hd0)
                (fun h => absurd h hii)
                (fun h => absurd h hii)
      · rw [if_neg hon]
        dsimp only
        by_cases hii : i = id
        · subst hii
          have hnoopen : ∀ p ∈ s.intervals i, p.2.isSome = true :=
            no_open_of_status i s hinv (fun d0 hd0 => by
              rw [hdbi] at hd0; cases hd0; exact hon)
          refine inv_master i i s _ hinv none rfl (fun d0 hd0 => by cases hd0)
            rfl (fun hne _ => absurd rfl hne)
            (s.intervals i) rfl
            hinv.stamps hinv.closedWf hinv.prefixClosed
            (fun ⟨p, hp, hpo⟩ => by have := hnoopen p hp; rw [hpo] at this; cases this)
            (fun ⟨p, hp, hpo⟩ => by have := hnoopen p hp; rw [hpo] at this; cases this)
            (fun _ d0 hd0 => by cases hd0)
            (fun _ d0 hd0 => by cases hd0)
        · refine inv_master id i s _ hinv none rfl (fun d0 hd0 => by cases hd0)
            rfl (fun _ hm => hm)
            (s.intervals id) rfl
            hinv.stamps hinv.closedWf hinv.prefixClosed
            (fun ⟨p, hp, hpo⟩ => hinv.openSeen p hp hpo)
            (fun ⟨p, hp, hpo⟩ => by
              obtain ⟨d0, hd0, hst0⟩ := hinv.openOn p hp hpo
              refine ⟨d0, ?_, hst0⟩
              show fset s.db i none id = some d0
              rw [fset_other _ _ _ _ (fun h => hii h.symm)]
              exact hd0)
            (fun h => absurd h hii)
            (fun h => absurd h hii)

theorem run_inv (id : String) (hid : id ≠ "") :
    ∀ (cs : List Cmd) (s : Sys), Inv id s →
      (∀ c ∈ cs, wfCmd c) → (∀ c ∈ cs, statusOkFor id c) →
      (∀ c ∈ cs, paramsOkFor id c) →
      noOpenAtDeletes id s cs → Inv id (run s cs)
  | [], s, hinv, _, _, _, _ => hinv
  | c :: cs, s, hinv, hwf, hst, hpar, hdel => by
      have hdel' : (c = Cmd.httpDelete id → openCount (s.intervals id) = 0) ∧
          noOpenAtDeletes id (step s c) cs := hdel
      have h1 : Inv id (applyCmd s c) :=
        applyCmd_inv id s c hinv hid (hwf c (List.mem_cons_self _ _))
          (hst c (List.mem_cons_self _ _)) (hpar c (List.mem_cons_self _ _)) hdel'.1
      have h2 : Inv id (step s c) := inv_bump id (applyCmd s c) h1
      show Inv id (run (step s c) cs)
      exact run_inv id hid cs (step s c) h2
        (fun c' h => hwf c' (List.mem_cons_of_mem _ h))
        (fun c' h => hst c' (List.mem_cons_of_mem _ h))
        (fun c' h => hpar c' (List.mem_cons_of_mem _ h))
        hdel'.2

/-- C1 amended: the no-two-open-intervals half of the invariant does not hold
unconditionally (see the counterexample); it holds for every device id and
every command trace in which (i) payload keys are unique as JSON guarantees,
(ii) every status value submitted for that id lies in the binary on/off
domain, (iii) every record posted under that id has parameters whose metric
projections run without raising, so the first-seen bootstrap completes
rather than aborting between the interval open and the seen-set add, (iv)
the synchronous delete is only applied to that id while its ledger holds no
open interval, and (v) the id is nonempty. The second half — every closed
interval has end at or after its start — holds along every such trace as
stated. -/
theorem C1_interval_invariant_amended (id : String) (cs : List Cmd)
    (hid : id ≠ "")
    (hwf : ∀ c ∈ cs, wfCmd c)
    (hst : ∀ c ∈ cs, statusOkFor id c)
    (hpar : ∀ c ∈ cs, paramsOkFor id c)
    (hdel : noOpenAtDeletes id init cs) :
    openCount ((run init cs).intervals id) ≤ 1 ∧
    ∀ p ∈ (run init cs).intervals id, ∀ e, p.2 = some e → p.1 ≤ e := by
  have h := run_inv id hid cs init (inv_init id) hwf hst hpar hdel
  exact ⟨openCount_le_one_of_prefixClosed _ h.prefixClosed, h.closedWf⟩

theorem C1_interval_invariant_amended_witness :
    openCount ((run init [Cmd.httpPost devOff, Cmd.httpPut "d" [("status", "on")], Cmd.tick,
      Cmd.httpPut "d" [("status", "off")], Cmd.httpDelete "d"]).intervals "d") ≤ 1 ∧
    ∀ p ∈ (run init [Cmd.httpPost devOff, Cmd.httpPut "d" [("status", "on")], Cmd.tick,
      Cmd.httpPut "d" [("status", "off")], Cmd.httpDelete "d"]).intervals "d",
      ∀ e, p.2 = some e → p.1 ≤ e :=
  C1_interval_invariant_amended "d"
    [Cmd.httpPost devOff, Cmd.httpPut "d" [("status", "on")], Cmd.tick,
      Cmd.httpPut "d" [("status", "off")], Cmd.httpDelete "d"]
    (by decide) (by decide) (by decide) (by decide) (by decide)

end SmartHome
